import Mathlib

/-!
Verification of the SubFast episode-identification and pairing core.

This file gives a shallow embedding, in Lean 4, of the episode-pattern
engine (`subfast/scripts/common/pattern_engine.py`) and of the pairing /
renaming logic (`subfast/scripts/subfast_rename.py`) of the SubFast
repository, together with theorems settling the frozen claims about the
natural-language specification of that code.

Modelling conventions:
* Python strings are modelled as Lean `String` / `List Char`.
* Python's `re` regexes are modelled by a small backtracking engine
  (`RE`, `mrun`, `searchPos`) whose preference order mirrors CPython's:
  leftmost starting position first; at a position, alternatives
  left-to-right and greedy quantifiers longest-first.  The character
  classes `\d`, `\s`, `[a-zA-Z0-9]` are modelled over ASCII (the
  repository's filenames and all pattern literals are ASCII).
* Python `int` values arising here are parsed from `\d+` captures and
  are therefore non-negative; they are modelled as `Nat`.
* `functools.lru_cache` memoizes a pure function; the cached lookup is
  modelled by the function itself.
* File-system state (`os.listdir`, `os.path.exists`) is modelled by an
  explicit finite list of existing file names.
-/

namespace SubFast

/-! Character classes: the ASCII model of the Python regex classes. -/

/-- Class `\d`: a decimal digit. -/
def isDig (c : Char) : Bool := '0' ≤ c && c ≤ '9'

/-- Class `\s`: Python whitespace (space, tab, newline, CR, vertical tab, form feed). -/
def isSpc (c : Char) : Bool :=
  c == ' ' || c == '\t' || c == '\n' || c == '\r' || c == '\x0b' || c == '\x0c'

/-- Class `[a-zA-Z0-9]`: an ASCII alphanumeric character. -/
def isAlnum (c : Char) : Bool :=
  ('a' ≤ c && c ≤ 'z') || ('A' ≤ c && c ≤ 'Z') || isDig c

/-- The class `[._\s-]` (equivalently `[\s\._-]`) used as separator in the rules. -/
def isSepC (c : Char) : Bool := c == '.' || c == '_' || c == '-' || isSpc c

/-- The class `[\s_]` of rule `Season##_Episode##`. -/
def isSpcU (c : Char) : Bool := c == '_' || isSpc c

/-- Case-insensitive match of one ASCII letter (`ch` given lowercase);
models a letter literal under `re.IGNORECASE`. -/
def ciChar (ch : Char) (c : Char) : Bool := c == ch || c.toLower == ch

/-! A small backtracking regex engine.

`RE` covers exactly the constructs appearing in the source's patterns.
Star is restricted to single-character classes (every `*`/`+` in the
source applies to a class), which keeps the matcher structurally
recursive.  Lookarounds in the source are all one character wide. -/

/-- Regex abstract syntax for the source's patterns. -/
inductive RE where
  /-- matches the empty string -/
  | eps : RE
  /-- one character of a class -/
  | cls (p : Char → Bool) : RE
  /-- concatenation -/
  | seq (a b : RE) : RE
  /-- alternation, left alternative preferred -/
  | alt (a b : RE) : RE
  /-- greedy `?` -/
  | opt (a : RE) : RE
  /-- greedy `*` over a character class -/
  | starC (p : Char → Bool) : RE
  /-- capture group `n` -/
  | group (n : Nat) (a : RE) : RE
  /-- negative lookahead `(?![class])` -/
  | nla (p : Char → Bool) : RE
  /-- positive lookahead `(?=[class]|$)` -/
  | sepOrEnd (p : Char → Bool) : RE
  /-- negative lookbehind `(?<![class])` -/
  | nlb (p : Char → Bool) : RE
  /-- beginning of string `^` -/
  | bos : RE

/-- Captured groups: group index paired with the captured characters
(most recent first; all source groups capture at most once per match). -/
abbrev Caps := List (Nat × List Char)

/-- Matcher state: `left` is the reversed prefix of the input before the
current position (so lookbehind and `^` can inspect it), `rest` the
remaining input, `caps` the captures so far. -/
structure MState where
  left : List Char
  rest : List Char
  caps : Caps
  deriving Repr, DecidableEq

/-- Candidate continuations of a greedy class star, longest consumption
first: mirrors the backtracking order of a greedy quantifier. -/
def starRun (p : Char → Bool) : List Char → List Char → List (List Char × List Char)
  | left, [] => [(left, [])]
  | left, c :: rs =>
    if p c then starRun p (c :: left) rs ++ [(left, c :: rs)]
    else [(left, c :: rs)]

/-- Run a regex at the current position, returning all ways it can match
in the engine's preference order (first element = the match Python's
backtracking engine commits to). -/
def mrun : RE → MState → List MState
  | .eps, st => [st]
  | .cls p, st =>
    match st.rest with
    | [] => []
    | c :: rs => if p c then [⟨c :: st.left, rs, st.caps⟩] else []
  | .seq a b, st => (mrun a st).flatMap (mrun b)
  | .alt a b, st => mrun a st ++ mrun b st
  | .opt a, st => mrun a st ++ [st]
  | .starC p, st =>
    (starRun p st.left st.rest).map (fun lr => ⟨lr.1, lr.2, st.caps⟩)
  | .group n a, st =>
    (mrun a st).map (fun st' =>
      ⟨st'.left, st'.rest, (n, (st'.left.take (st'.left.length - st.left.length)).reverse) :: st'.caps⟩)
  | .nla p, st =>
    match st.rest with
    | [] => [st]
    | c :: _ => if p c then [] else [st]
  | .sepOrEnd p, st =>
    match st.rest with
    | [] => [st]
    | c :: _ => if p c then [st] else []
  | .nlb p, st =>
    match st.left with
    | [] => [st]
    | c :: _ => if p c then [] else [st]
  | .bos, st =>
    match st.left with
    | [] => [st]
    | _ :: _ => []

/-- Search semantics of `re.search`: try each start position left to right; at the
first position where the pattern matches, commit to the engine's
preferred match.  Returns the start position and the final state. -/
def searchPos (r : RE) (pos : Nat) (left rest : List Char) : Option (Nat × MState) :=
  match (mrun r ⟨left, rest, []⟩).head? with
  | some st => some (pos, st)
  | none =>
    match rest with
    | [] => none
    | c :: rs => searchPos r (pos + 1) (c :: left) rs

/-- Run `re.search` on a whole string, returning the matcher state. -/
def reSearch (r : RE) (s : List Char) : Option MState :=
  (searchPos r 0 [] s).map (·.2)

/-- Value of capture group `n` (`m.group(n)`). -/
def capGet (caps : Caps) (n : Nat) : Option (List Char) :=
  (caps.find? (fun p => p.1 == n)).map (·.2)

/-! Regex construction helpers. -/

/-- Concatenation of a list of regexes. -/
def seqs : List RE → RE
  | [] => .eps
  | [r] => r
  | r :: rs => .seq r (seqs rs)

/-- A literal character (case-sensitive). -/
def chr (c : Char) : RE := .cls (fun x => x == c)

/-- A literal ASCII letter under `re.IGNORECASE` (argument lowercase). -/
def chrI (c : Char) : RE := .cls (ciChar c)

/-- A case-insensitive literal word (all letters, given lowercase). -/
def litI (s : String) : RE := seqs (s.data.map chrI)

/-- Class `[Ss]` (also the effect of `s` under IGNORECASE). -/
def reS : RE := chrI 's'
/-- Class `[Ee]`. -/
def reE : RE := chrI 'e'
/-- Class `[Pp]`. -/
def reP : RE := chrI 'p'

/-- Class `\d`. -/
def d1 : RE := .cls isDig
/-- Quantified `\d+` (greedy). -/
def dPlus : RE := .seq d1 (.starC isDig)
/-- Quantified `\d{1,2}` (greedy). -/
def d12 : RE := .seq d1 (.opt d1)
/-- Quantified `\d{1,3}` (greedy). -/
def d13 : RE := .seq d1 (.opt (.seq d1 (.opt d1)))
/-- Quantified `\s?`. -/
def sOpt : RE := .opt (.cls isSpc)
/-- Quantified `\s*`. -/
def sStar : RE := .starC isSpc
/-- Quantified `\s+`. -/
def sPlus : RE := .seq (.cls isSpc) (.starC isSpc)
/-- Separator `\s*-\s*`. -/
def dashSep : RE := seqs [sStar, chr '-', sStar]
/-- Alternation `(?:st|nd|rd|th)` under IGNORECASE. -/
def ordSuffix : RE := .alt (litI "st") (.alt (litI "nd") (.alt (litI "rd") (litI "th")))
/-- Alternation `(?:^|[._\s-])`. -/
def bosOrSep : RE := .alt .bos (.cls isSepC)
/-- Fragment `p(?:isode)?` under IGNORECASE. -/
def pIsodeOpt : RE := .seq reP (.opt (litI "isode"))
/-- Alternation `(?:1[0-8]\d{2}|\d{1,3})`: episode numbers 0–1899 of the hardened
default-season rules (years 1900+ cannot match). -/
def ep1899 : RE :=
  .alt (seqs [chr '1', .cls (fun c => '0' ≤ c && c ≤ '8'), d1, d1]) d13

/-! Decimal rendering and parsing of numbers.

`natStr n` is the decimal rendering of a non-negative integer, the
meaning of Python's `f"{n}"`; it is defined with a fuel argument (any
fuel `> n` suffices) so that it reduces by kernel computation. -/

/-- Decimal digits of `n`, given enough fuel. -/
def natStrAux : Nat → Nat → List Char
  | 0, _ => []
  | fuel + 1, n =>
    if n < 10 then [Nat.digitChar n]
    else natStrAux fuel (n / 10) ++ [Nat.digitChar (n % 10)]

/-- Python `f"{n}"` for a non-negative integer `n`. -/
def natStr (n : Nat) : String := ⟨natStrAux (n + 1) n⟩

/-- Numeric value of a list of decimal digits. -/
def digitsToNat (ds : List Char) : Nat :=
  ds.foldl (fun a c => 10 * a + (c.toNat - 48)) 0

/-- Python `int(s)` restricted to the digit strings produced by the
engine's captures: fails (raising `ValueError`, modelled as `none`)
unless `ds` is a non-empty string of decimal digits. -/
def intOfDigits? (ds : List Char) : Option Nat :=
  if ds ≠ [] && ds.all isDig then some (digitsToNat ds) else none

/-! The rule table `EPISODE_PATTERNS`.

Each rule is `(name, regex, formatter)` exactly as in the source; the
formatter receives the match's captures and yields `(season, episode)`,
or `none` where the Python lambda would raise. -/

/-- Formatter `lambda m: (int(m.group(1)), int(m.group(2)))`. -/
def fmtG1G2 (caps : Caps) : Option (Nat × Nat) :=
  match capGet caps 1, capGet caps 2 with
  | some a, some b =>
    match intOfDigits? a, intOfDigits? b with
    | some x, some y => some (x, y)
    | _, _ => none
  | _, _ => none

/-- Formatter `lambda m: (1, int(m.group(1)))` (default-season-1 rules).
For rules 27 and 29 the Python lambda writes
`int(m.group(0).split(sep)[1].strip())`; on any match of those rules the
matched text is the separator followed by optional spaces and the
digits, so that expression equals `int` of the digits, which the
embedding captures as group 1. -/
def fmtSeason1 (caps : Caps) : Option (Nat × Nat) :=
  match capGet caps 1 with
  | some a =>
    match intOfDigits? a with
    | some x => some (1, x)
    | none => none
  | none => none

/-- Pattern 1 `[Ss](\d+)\s?[Ee](\d+)` -/
def p01 : RE := seqs [reS, .group 1 dPlus, sOpt, reE, .group 2 dPlus]
/-- Pattern 1a `[Ss](\d+)\s+[Ee]pisode\s+(\d+)`, IGNORECASE -/
def p01a : RE := seqs [reS, .group 1 dPlus, sPlus, litI "episode", sPlus, .group 2 dPlus]
/-- Pattern 2 `(?:^|[._\s-])(\d{1,2})[xX](\d+)(?=[._\s-]|$)` -/
def p02 : RE :=
  seqs [bosOrSep, .group 1 d12, .cls (fun c => c == 'x' || c == 'X'), .group 2 dPlus,
    .sepOrEnd isSepC]
/-- Pattern 3 `[Ss](\d{1,2})\s*-\s*(\d+)`, IGNORECASE -/
def p03 : RE := seqs [reS, .group 1 d12, dashSep, .group 2 dPlus]
/-- Pattern 4 `[Ss](\d{1,2})\s*-\s*[Ee](\d+)`, IGNORECASE -/
def p04 : RE := seqs [reS, .group 1 d12, dashSep, reE, .group 2 dPlus]
/-- Pattern 4a `[Ss](\d{1,2})\.E(\d+)`, IGNORECASE -/
def p04a : RE := seqs [reS, .group 1 d12, chr '.', reE, .group 2 dPlus]
/-- Pattern 4b `[Ss](\d{1,2})_[Ee](\d+)`, IGNORECASE -/
def p04b : RE := seqs [reS, .group 1 d12, chr '_', reE, .group 2 dPlus]
/-- Pattern 5 `[Ss](\d{1,2})\s*-\s*[Ee][Pp](\d+)`, IGNORECASE -/
def p05 : RE := seqs [reS, .group 1 d12, dashSep, reE, reP, .group 2 dPlus]
/-- Pattern 5a `[Ss](\d{1,2})\s+[Ee][Pp]\s*(\d+)`, IGNORECASE -/
def p05a : RE := seqs [reS, .group 1 d12, sPlus, reE, reP, sStar, .group 2 dPlus]
/-- Pattern 5b `[Ss](\d{1,2})\.[Ee][Pp](\d+)`, IGNORECASE -/
def p05b : RE := seqs [reS, .group 1 d12, chr '.', reE, reP, .group 2 dPlus]
/-- Pattern 6 `(\d{1,2})(?:st|nd|rd|th)\s+[Ss]eason\s*-\s*(\d+)`, IGNORECASE -/
def p06 : RE := seqs [.group 1 d12, ordSuffix, sPlus, litI "season", dashSep, .group 2 dPlus]
/-- Pattern 7 `(\d{1,2})(?:st|nd|rd|th)\s+[Ss]eason\s+[Ee]pisode\s+(\d+)`, IGNORECASE -/
def p07 : RE :=
  seqs [.group 1 d12, ordSuffix, sPlus, litI "season", sPlus, litI "episode", sPlus,
    .group 2 dPlus]
/-- Pattern 8 `(\d{1,2})(?:st|nd|rd|th)\s+[Ss]eason\s+[Ee]\s*(\d+)`, IGNORECASE -/
def p08 : RE :=
  seqs [.group 1 d12, ordSuffix, sPlus, litI "season", sPlus, reE, sStar, .group 2 dPlus]
/-- Pattern 9 `(\d{1,2})(?:st|nd|rd|th)\s+[Ss]eason\s+[Ee][Pp]\s*(\d+)`, IGNORECASE -/
def p09 : RE :=
  seqs [.group 1 d12, ordSuffix, sPlus, litI "season", sPlus, reE, reP, sStar, .group 2 dPlus]
/-- Pattern 10 `[Ss]eason\s+(\d{1,2})\s*-\s*(\d+)`, IGNORECASE -/
def p10 : RE := seqs [litI "season", sPlus, .group 1 d12, dashSep, .group 2 dPlus]
/-- Pattern 11 `[Ss]eason(\d{1,2})\s*-\s*(\d+)`, IGNORECASE -/
def p11 : RE := seqs [litI "season", .group 1 d12, dashSep, .group 2 dPlus]
/-- Pattern 12 `[Ss]eason\.(\d+)[\s\._-]*[Ee]pisode\.(\d+)`, IGNORECASE -/
def p12 : RE :=
  seqs [litI "season", chr '.', .group 1 dPlus, .starC isSepC, litI "episode", chr '.',
    .group 2 dPlus]
/-- Pattern 13 `[Ss](\d+)[\s\._-]*[Ee]p(?:isode)?\.(\d+)`, IGNORECASE -/
def p13 : RE :=
  seqs [reS, .group 1 dPlus, .starC isSepC, reE, pIsodeOpt, chr '.', .group 2 dPlus]
/-- Pattern 14 `[Ss](\d+)[Ee]p(?:isode)?(\d+)`, IGNORECASE -/
def p14 : RE := seqs [reS, .group 1 dPlus, reE, pIsodeOpt, .group 2 dPlus]
/-- Pattern 15 `[Ss]eason\s+(\d+)\s+[Ee]pisode\s+(\d+)`, IGNORECASE -/
def p15 : RE :=
  seqs [litI "season", sPlus, .group 1 dPlus, sPlus, litI "episode", sPlus, .group 2 dPlus]
/-- Pattern 15a `[Ss]eason\s*(\d+)[\s_]+[Ee]pisode\s*(\d+)`, IGNORECASE -/
def p15a : RE :=
  seqs [litI "season", sStar, .group 1 dPlus, .cls isSpcU, .starC isSpcU, litI "episode",
    sStar, .group 2 dPlus]
/-- Pattern 16 `[Ss]eason(\d+)[Ee]pisode(\d+)`, IGNORECASE -/
def p16 : RE := seqs [litI "season", .group 1 dPlus, litI "episode", .group 2 dPlus]
/-- Pattern 17 `[Ss]eason(\d+)\s+[Ee]pisode(\d+)`, IGNORECASE -/
def p17 : RE := seqs [litI "season", .group 1 dPlus, sPlus, litI "episode", .group 2 dPlus]
/-- Pattern 18 `[Ss]eason(\d+)\s+[Ee]p(?:isode)?(\d+)`, IGNORECASE -/
def p18 : RE := seqs [litI "season", .group 1 dPlus, sPlus, reE, pIsodeOpt, .group 2 dPlus]
/-- Pattern 19 `[Ss]eason(\d+)[Ee]p(?:isode)?(\d+)`, IGNORECASE -/
def p19 : RE := seqs [litI "season", .group 1 dPlus, reE, pIsodeOpt, .group 2 dPlus]
/-- Pattern 19a `[Ss]eason(\d+)\s+[Ee](\d+)`, IGNORECASE -/
def p19a : RE := seqs [litI "season", .group 1 dPlus, sPlus, reE, .group 2 dPlus]
/-- Pattern 20 `[Ss]eason\s+(\d+)[\s\._-]*[Ee]p(?:isode)?\s*(\d+)`, IGNORECASE -/
def p20 : RE :=
  seqs [litI "season", sPlus, .group 1 dPlus, .starC isSepC, reE, pIsodeOpt, sStar,
    .group 2 dPlus]
/-- Pattern 22 `[Ss]eason(\d+)[\s\._-]*[Ee]p(?:isode)?(\d+)`, IGNORECASE -/
def p22 : RE :=
  seqs [litI "season", .group 1 dPlus, .starC isSepC, reE, pIsodeOpt, .group 2 dPlus]
/-- Pattern 23 `[Ss]eason\s+(\d+)\s+[Ee]p(?:isode)?\s*(\d+)`, IGNORECASE -/
def p23 : RE :=
  seqs [litI "season", sPlus, .group 1 dPlus, sPlus, reE, pIsodeOpt, sStar, .group 2 dPlus]
/-- Pattern 24 `(?:^|[._\s-])[Ee]p(?:isode)?\s*(\d+)(?=[._\s-]|$)`, IGNORECASE -/
def p24 : RE :=
  seqs [bosOrSep, reE, pIsodeOpt, sStar, .group 1 dPlus, .sepOrEnd isSepC]
/-- Pattern 25 `(?:^|[._\s-])[Ee](\d+)(?=[._\s-]|$)` -/
def p25 : RE := seqs [bosOrSep, reE, .group 1 dPlus, .sepOrEnd isSepC]
/-- Pattern 26 `(?<![0-9])(\d{1,2})\s*-\s*(\d{1,2})(?![a-zA-Z0-9])` -/
def p26 : RE :=
  seqs [.nlb isDig, .group 1 d12, dashSep, .group 2 d12, .nla isAlnum]
/-- Pattern 27 `-\s*(?:1[0-8]\d{2}|\d{1,3})(?![a-zA-Z0-9])` -/
def p27 : RE := seqs [chr '-', sStar, .group 1 ep1899, .nla isAlnum]
/-- Pattern 28 `\[(\d{1,2})\](?![a-zA-Z0-9])` -/
def p28 : RE := seqs [chr '[', .group 1 d12, chr ']', .nla isAlnum]
/-- Pattern 29 `_(?:1[0-8]\d{2}|\d{1,3})(?![a-zA-Z0-9])` -/
def p29 : RE := seqs [chr '_', .group 1 ep1899, .nla isAlnum]

/-- One rule of the table: name, compiled regex, formatter. -/
abbrev Rule := String × RE × (Caps → Option (Nat × Nat))

/-- The ordered, immutable rule table.  Order is the
source's order; first match wins. -/
def EPISODE_PATTERNS : List Rule :=
  [("S##E##", p01, fmtG1G2),
   ("S## Episode ##", p01a, fmtG1G2),
   ("##x##", p02, fmtG1G2),
   ("S## - ##", p03, fmtG1G2),
   ("S## - E##", p04, fmtG1G2),
   ("S##.E##", p04a, fmtG1G2),
   ("S##_E##", p04b, fmtG1G2),
   ("S## - EP##", p05, fmtG1G2),
   ("S## EP##", p05a, fmtG1G2),
   ("S##.EP##", p05b, fmtG1G2),
   ("1st Season - ##", p06, fmtG1G2),
   ("1st Season Episode ##", p07, fmtG1G2),
   ("1st Season E##", p08, fmtG1G2),
   ("1st Season EP##", p09, fmtG1G2),
   ("Season ## - ##", p10, fmtG1G2),
   ("Season## - ##", p11, fmtG1G2),
   ("Season.#.Episode.#", p12, fmtG1G2),
   ("S#.Ep.#", p13, fmtG1G2),
   ("S#Ep#", p14, fmtG1G2),
   ("Season # Episode #", p15, fmtG1G2),
   ("Season##_Episode##", p15a, fmtG1G2),
   ("Season#Episode#", p16, fmtG1G2),
   ("Season# Episode#", p17, fmtG1G2),
   ("Season# Ep#", p18, fmtG1G2),
   ("Season#Ep#", p19, fmtG1G2),
   ("season## e##", p19a, fmtG1G2),
   ("Season #.Ep #", p20, fmtG1G2),
   ("Season#.Ep#", p22, fmtG1G2),
   ("Season # Ep #", p23, fmtG1G2),
   ("Ep##", p24, fmtSeason1),
   ("E##", p25, fmtSeason1),
   ("## - ##", p26, fmtG1G2),
   ("- ##", p27, fmtSeason1),
   ("[##]", p28, fmtSeason1),
   ("_##", p29, fmtSeason1)]

/-! The matcher, normalizer, parser and final-season resolver. -/

/-- Apply one rule to a filename: `pattern.search(filename)` followed by
the formatter (a formatter failure makes the rule yield nothing). -/
def runRule (r : RE) (fmt : Caps → Option (Nat × Nat)) (s : List Char) : Option (Nat × Nat) :=
  match reSearch r s with
  | some st => fmt st.caps
  | none => none

/-- Try the rules in table order; first rule that produces a result wins
(`extract_episode_info`'s loop: a rule whose formatter raises is skipped
and matching continues with the next rule). -/
def extractGo : List Rule → List Char → Option (Nat × Nat)
  | [], _ => none
  | (_, r, fmt) :: rules, s =>
    match runRule r fmt s with
    | some v => some v
    | none => extractGo rules s

/-- Function `extract_episode_info(filename)`: season and episode from a
filename, or `none` if no rule matches. -/
def extract_episode_info (filename : String) : Option (Nat × Nat) :=
  extractGo EPISODE_PATTERNS filename.data

/-- Function `normalize_episode_number(season, episode)`: canonical `S##E##`
string, each component zero-padded to at least two digits. -/
def normalize_episode_number (season episode : Nat) : String :=
  (if season < 10 then "S0" ++ natStr season else "S" ++ natStr season) ++
  (if episode < 10 then "E0" ++ natStr episode else "E" ++ natStr episode)

/-- Function `get_episode_number_cached(filename)`.  Python memoizes this
pure composition; the cache is modelled by the function itself. -/
def get_episode_number_cached (filename : String) : Option String :=
  match extract_episode_info filename with
  | some (season, episode) => some (normalize_episode_number season episode)
  | none => none

/-- Anchored parse of `re.match(r'S(\d+)E(\d+)', s, re.IGNORECASE)`.
Both `\d+` are modelled by maximal digit runs: `E`/`e` is not a digit,
so the backtracking regex engine never benefits from giving characters
back and the greedy parse is exact. -/
def parseSE (cs : List Char) : Option (List Char × List Char) :=
  match cs with
  | [] => none
  | c :: rest =>
    if c == 'S' || c == 's' then
      let ds := rest.takeWhile isDig
      if ds.isEmpty then none
      else
        match rest.dropWhile isDig with
        | [] => none
        | e :: rest2 =>
          if e == 'E' || e == 'e' then
            let es := rest2.takeWhile isDig
            if es.isEmpty then none else some (ds, es)
          else none
    else none

/-- Function `extract_season_episode_numbers(episode_string)`: the zero-padded
season and episode components of a normalized episode string, or
`("", "")` when parsing fails (also for the empty string). -/
def extract_season_episode_numbers (episode_string : String) : String × String :=
  match parseSE episode_string.data with
  | some (ds, es) => (⟨ds⟩, ⟨es⟩)
  | none => ("", "")

/-- The regex `final[.\s_-]+season` (IGNORECASE) of
`detect_final_season_keyword`. -/
def finalSeasonRE : RE :=
  seqs [litI "final", .cls isSepC, .starC isSepC, litI "season"]

/-- Function `detect_final_season_keyword(filename)`: whether the literal phrase
"FINAL SEASON" (any case, `.`/`_`/`-`/whitespace separators) occurs. -/
def detect_final_season_keyword (filename : String) : Bool :=
  (reSearch finalSeasonRE filename.data).isSome

/-- Function `match_subtitle_to_video(subtitle_file, video_file)`: the
final-season resolver: extraction on both sides, contextual season
inference for a "FINAL SEASON" side that defaulted to season 1, then
comparison of the normalized identifiers. -/
def match_subtitle_to_video (subtitle_file video_file : String) :
    Option String × Option String :=
  match extract_episode_info subtitle_file, extract_episode_info video_file with
  | some subInfo, some vidInfo =>
    let subHasFinal := detect_final_season_keyword subtitle_file
    let vidHasFinal := detect_final_season_keyword video_file
    let infos : (Nat × Nat) × (Nat × Nat) :=
      if subHasFinal ∧ subInfo.1 = 1 ∧ vidInfo.1 ≠ 1 then
        ((vidInfo.1, subInfo.2), vidInfo)
      else if vidHasFinal ∧ vidInfo.1 = 1 ∧ subInfo.1 ≠ 1 then
        (subInfo, (subInfo.1, vidInfo.2))
      else (subInfo, vidInfo)
    let subNorm := normalize_episode_number infos.1.1 infos.1.2
    let vidNorm := normalize_episode_number infos.2.1 infos.2.2
    if subNorm = vidNorm then (some subNorm, some vidNorm) else (none, none)
  | _, _ => (none, none)

/-! The renaming layer of `subfast_rename.py` (v3.1.0).

File-system state is modelled by explicit lists: the directory listing
is a `List String` of file names, and `os.path.exists` on a name in the
working directory is membership in that list. -/

/-- Zero-padded decimal string of `n`, width at least two: the component
form produced by `normalize_episode_number` (specification §4.2's
"zero-pads each component to width 2, never truncates values ≥ 100"). -/
def padStr (n : Nat) : String :=
  if n < 10 then "0" ++ natStr n else natStr n

/-- Re-parse a normalized episode string and re-normalize the resulting
integers (the composition claim C9 asserts to be the identity on
every string produced by `get_episode_number_cached`). -/
def renormalize (es : String) : String :=
  let se := extract_season_episode_numbers es
  normalize_episode_number (digitsToNat se.1.data) (digitsToNat se.2.data)

/-- Python `os.path.splitext` on a bare file name: split at the last dot
that has some non-dot character before it; otherwise the extension is
empty. -/
def splitext (s : String) : String × String :=
  match s.data.reverse.span (fun c => !(c == '.')) with
  | (_, []) => (s, "")
  | (after, _ :: rbefore) =>
    if rbefore.any (fun c => !(c == '.')) then
      (⟨rbefore.reverse⟩, ⟨'.' :: after.reverse⟩)
    else (s, "")

/-- Association-list lookup, the model of a Python `dict` built by
insertions of fresh keys (`d[k]`, `k in d`). -/
def alookup {α β : Type} [BEq α] (l : List (α × β)) (k : α) : Option β :=
  (l.find? (fun p => p.1 == k)).map (·.2)

/-- Insertion step of insertion sort by `≤` on strings. -/
def insertSorted (v : String) : List String → List String
  | [] => [v]
  | x :: xs => if v ≤ x then v :: x :: xs else x :: insertSorted v xs

/-- Python `sorted` on file names.  Lean's `≤` on `String` is the
lexicographic order on code points, the same total order Python uses;
any sort agrees with Python's on every list (duplicates are identical
strings, so stability is irrelevant). -/
def sortStrings (l : List String) : List String := l.foldr insertSorted []

/-- Season/episode key of a normalized episode string, as computed in
`build_episode_context` / `process_subtitles`:
`extract_season_episode_numbers` followed by the `if season and episode`
truthiness guard and `int(...)` on the two digit strings. -/
def parseKeyOfEp (es : String) : Option (Nat × Nat) :=
  let se := extract_season_episode_numbers es
  if se.1 ≠ "" ∧ se.2 ≠ "" then some (digitsToNat se.1.data, digitsToNat se.2.data)
  else none

/-- Loop body of `build_episode_context`, processing the sorted video
list while threading the two dictionaries (`video_episodes` keyed by
`(season, episode)`, `temp_video_dict` keyed by episode string). -/
def becGo : List String → List ((Nat × Nat) × String) → List (String × String) →
    List ((Nat × Nat) × String) × List (String × String)
  | [], ve, tvd => (ve, tvd)
  | video :: rest, ve, tvd =>
    match get_episode_number_cached video with
    | none => becGo rest ve tvd
    | some episode_string =>
      match parseKeyOfEp episode_string with
      | none => becGo rest ve tvd
      | some key =>
        match alookup ve key with
        | none => becGo rest (ve ++ [(key, episode_string)]) (tvd ++ [(episode_string, video)])
        | some _ =>
          match alookup tvd episode_string with
          | none => becGo rest ve (tvd ++ [(episode_string, video)])
          | some _ => becGo rest ve tvd

/-- Function `build_episode_context(video_files)`: reference mappings for
context-aware episode matching, built over the videos in sorted order. -/
def build_episode_context (video_files : List String) :
    List ((Nat × Nat) × String) × List (String × String) :=
  becGo (sortStrings video_files) [] []

/-- Context-aware adjustment step of `process_subtitles`: substitute the
subtitle's episode string by the table's canonical string when its
`(season, episode)` key is recorded. -/
def adjustedEpisode (ve : List ((Nat × Nat) × String)) (ep : Option String) : Option String :=
  match ep with
  | none => none
  | some e =>
    match parseKeyOfEp e with
    | none => some e
    | some key =>
      match alookup ve key with
      | some video_pattern => some video_pattern
      | none => some e

/-- Target-video selection of `process_subtitles` for one subtitle:
look up the adjusted episode string, falling back to the raw one. -/
def subtitleTarget (ve : List ((Nat × Nat) × String)) (tvd : List (String × String))
    (subtitle : String) : Option String :=
  let ep := get_episode_number_cached subtitle
  match adjustedEpisode ve ep with
  | none => none
  | some adj =>
    match alookup tvd adj with
    | some target => some target
    | none =>
      match ep with
      | none => none
      | some e => alookup tvd e

/-- Value of `renamed_count` after `process_subtitles`: the number of
processed subtitles for which a target video was found (each such
subtitle is renamed; the rename itself does not affect the count). -/
def renamedCount (subtitle_files : List String) (ve : List ((Nat × Nat) × String))
    (tvd : List (String × String)) : Nat :=
  ((sortStrings subtitle_files).filter (fun s => (subtitleTarget ve tvd s).isSome)).length

/-- Videos with no detectable episode pattern (`remaining_video_files`). -/
def remainingFiles (files : List String) : List String :=
  files.filter (fun f => (get_episode_number_cached f).isNone)

/-- Guard of the movie-mode fallback in `rename_subtitles_to_match_videos`:
`renamed_count == 0 and len(remaining_video_files) == 1 and
len(remaining_subtitle_files) == 1`. -/
def movieModeTriggerCondition (video_files subtitle_files : List String) : Bool :=
  let ctx := build_episode_context video_files
  renamedCount subtitle_files ctx.1 ctx.2 == 0 &&
  (remainingFiles video_files).length == 1 &&
  (remainingFiles subtitle_files).length == 1

/-! Movie-mode matching (`find_movie_subtitle_match` and helpers). -/

/-- Regex `PROBLEMATIC_CHARS = [<>:"/\|?*]`. -/
def isProblematicChar (c : Char) : Bool :=
  c == '<' || c == '>' || c == ':' || c == '"' || c == '/' || c == '\\' ||
  c == '|' || c == '?' || c == '*'

/-- Substitution `PROBLEMATIC_CHARS.sub('_', s)`: each such character is
one match of the single-character class. -/
def problematicCharsSub (s : String) : String :=
  ⟨s.data.map (fun c => if isProblematicChar c then '_' else c)⟩

/-- Class `[._\-]` of `BASE_NAME_CLEANUP`. -/
def isCleanupSep (c : Char) : Bool := c == '.' || c == '_' || c == '-'

/-- Substitution `BASE_NAME_CLEANUP.sub(' ', s)`: each maximal run of
`[._\-]+` becomes a single space.  The flag records whether the previous
character belonged to the current run. -/
def cleanupGo : Bool → List Char → List Char
  | _, [] => []
  | inRun, c :: cs =>
    if isCleanupSep c then
      if inRun then cleanupGo true cs else ' ' :: cleanupGo true cs
    else c :: cleanupGo false cs

/-- Python `str.strip()`: remove leading and trailing whitespace. -/
def pyStrip (cs : List Char) : List Char :=
  ((cs.dropWhile isSpc).reverse.dropWhile isSpc).reverse

/-- Python `str.lower()` (ASCII model, matching the repository's ASCII
file names and the ASCII indicator words). -/
def pyLower (cs : List Char) : List Char := cs.map Char.toLower

/-- Python `str.split()` with no argument: split on whitespace runs,
dropping empty pieces.  The accumulator holds the current word
reversed. -/
def pySplitGo (acc : List Char) : List Char → List String
  | [] => if acc.isEmpty then [] else [⟨acc.reverse⟩]
  | c :: cs =>
    if isSpc c then
      if acc.isEmpty then pySplitGo [] cs else ⟨acc.reverse⟩ :: pySplitGo [] cs
    else pySplitGo (c :: acc) cs

/-- Python `s.split()`. -/
def pySplit (cs : List Char) : List String := pySplitGo [] cs

/-- Function `extract_base_name(filename)`: drop the extension, replace
`[._\-]+` runs by spaces, strip. -/
def extract_base_name (filename : String) : String :=
  ⟨pyStrip (cleanupGo false (splitext filename).1.data)⟩

/-- Leftmost `YEAR_PATTERN = (?:19|20)\d{2}` match (`.search`), returning
the matched four-character text. -/
def yearScan : List Char → Option String
  | [] => none
  | c :: cs =>
    match cs with
    | c1 :: c2 :: c3 :: _ =>
      if ((c == '1' && c1 == '9') || (c == '2' && c1 == '0')) && isDig c2 && isDig c3 then
        some ⟨[c, c1, c2, c3]⟩
      else yearScan cs
    | _ => yearScan cs

/-- List `pat` occurs as a contiguous run starting at the head of `s`. -/
def leadsWith : List Char → List Char → Bool
  | [], _ => true
  | _ :: _, [] => false
  | p :: ps, c :: cs => p == c && leadsWith ps cs

/-- Python substring test `pat in s` for character lists. -/
def containsSeq (pat : List Char) : List Char → Bool
  | [] => leadsWith pat []
  | c :: cs => leadsWith pat (c :: cs) || containsSeq pat cs

/-- Set literal `COMMON_INDICATORS` (entries copied verbatim; Python's
set literal and `Finset` both deduplicate). -/
def COMMON_INDICATORS : List String :=
  ["1080p", "720p", "480p", "2160p", "4k", "bluray", "web", "dvd", "hd", "x264", "x265",
   "h264", "h265", "avc", "hevc", "aac", "ac3", "dts", "remux", "proper", "repack",
   "extended", "theatrical", "unrated", "directors", "cut", "multi", "sub", "eng", "en",
   "ara", "ar", "eng", "fre", "fr", "ger", "de", "ita", "es", "spa", "kor", "jpn", "ch",
   "chs", "cht", "internal", "limited", "unrated", "xvid", "divx", "ntsc", "pal", "dc",
   "sync", "syncopated", "cc", "sdh", "hc", "proper", "real", "final", "post", "pre",
   "sync", "dub", "dubbed", "sdh", "cc"]

/-- Significant words of a cleaned base name:
`set(name.lower().split()) - COMMON_INDICATORS`. -/
def significantWords (base_name : String) : Finset String :=
  (pySplit (pyLower base_name.data)).toFinset \ COMMON_INDICATORS.toFinset

/-- Function `find_movie_subtitle_match(video_files, subtitle_files)`.
The ratio comparison models the float test `match_ratio >= 0.3` by the
rational test `ratio ≥ 3/10`; the two agree on every reachable input,
because whenever `common_words` is empty the ratio is exactly `0` in
both arithmetics, and otherwise the disjunct `len(common_words) > 0`
already decides the condition. -/
def find_movie_subtitle_match (video_files subtitle_files : List String) :
    Option (String × String) :=
  match video_files, subtitle_files with
  | [video], [subtitle] =>
    let video_name := extract_base_name video
    let subtitle_name := extract_base_name subtitle
    let video_year := yearScan video.data
    let subtitle_year := yearScan subtitle.data
    let video_words := significantWords video_name
    let subtitle_words := significantWords subtitle_name
    let common_words := video_words ∩ subtitle_words
    let years_match := video_year.isSome ∧ subtitle_year.isSome ∧ video_year = subtitle_year
    if years_match then
      if 0 < common_words.card ∨
          video_year.any (fun y => containsSeq "19".data y.data || containsSeq "20".data y.data) then
        some (video, subtitle)
      else none
    else
      if 0 < video_words.card ∧ 0 < subtitle_words.card then
        let match_ratio : ℚ :=
          (common_words.card : ℚ) / (min video_words.card subtitle_words.card : ℚ)
        if match_ratio ≥ 3 / 10 ∨ 0 < common_words.card then some (video, subtitle)
        else none
      else none
  | _, _ => none

/-! Unique-name generation (`generate_unique_name` and helpers). -/

/-- Regex `SUBTITLE_SUFFIX_PATTERN = [._\-\s]*[Ss]ub(title)?[._\-\s]*`
(IGNORECASE).  Its separator class equals `isSepC`. -/
def subtitleSuffixRE : RE :=
  seqs [.starC isSepC, chrI 's', chrI 'u', chrI 'b', .opt (.group 1 (litI "title")),
    .starC isSepC]

/-- Substitution `pattern.sub('', s)` for a pattern without lookbehind or
anchors: repeatedly delete the leftmost match and continue after it.
Every match of `subtitleSuffixRE` contains the mandatory `sub` letters,
so matches are non-empty and a fuel of `length + 1` always suffices;
the zero-width guard is unreachable for this pattern. -/
def reSubEmptyGo (r : RE) : Nat → List Char → List Char
  | 0, s => s
  | fuel + 1, s =>
    match searchPos r 0 [] s with
    | none => s
    | some (pos, st) =>
      if s.length - st.rest.length ≤ pos then s
      else s.take pos ++ reSubEmptyGo r fuel st.rest

/-- Substitution `SUBTITLE_SUFFIX_PATTERN.sub('', s)`. -/
def subtitleSuffixSub (s : String) : String :=
  ⟨reSubEmptyGo subtitleSuffixRE (s.data.length + 1) s.data⟩

/-- Function `build_subtitle_filename(base_name, subtitle_ext,
language_suffix)`. -/
def build_subtitle_filename (base_name subtitle_ext language_suffix : String) : String :=
  if language_suffix ≠ "" then base_name ++ "." ++ language_suffix ++ subtitle_ext
  else base_name ++ subtitle_ext

/-- Counter loop of `generate_unique_name`: append `_<counter>` before
the extension until the name is unused.  The Python loop is unbounded;
it is modelled with fuel, and the termination theorem shows a fuel of
`existing.length + 1` always produces a result. -/
def gunLoop (name_part ext_part : String) (existing : List String) :
    Nat → Nat → Option String
  | 0, _ => none
  | fuel + 1, counter =>
    let specific := name_part ++ "_" ++ natStr counter ++ ext_part
    if specific ∈ existing then gunLoop name_part ext_part existing fuel (counter + 1)
    else some specific

/-- Function `generate_unique_name(base_name, subtitle_ext, subtitle,
directory, language_suffix)`, returning the chosen file name (the
directory only contributes to the returned path, which is the join of
the directory and the name).  `existing` is the directory listing. -/
def generate_unique_name (base_name subtitle_ext subtitle : String)
    (existing : List String) (language_suffix : String) : Option String :=
  let new_name := build_subtitle_filename base_name subtitle_ext language_suffix
  if new_name ∈ existing then
    let original_base := (splitext subtitle).1
    let cleaned := subtitleSuffixSub original_base
    let original_cleaned := if cleaned = "" then original_base else cleaned
    let suffix_part := if language_suffix ≠ "" then language_suffix ++ "_" else ""
    let specific_new_name :=
      problematicCharsSub (base_name ++ "." ++ suffix_part ++ original_cleaned ++ subtitle_ext)
    if specific_new_name ∈ existing then
      let parts := splitext specific_new_name
      gunLoop parts.1 parts.2 existing (existing.length + 1) 1
    else some specific_new_name
  else some new_name

/-! Derived notions used to state the claims. -/

/-- Canonical episode string of a `(season, episode)` key. -/
def normKey (k : Nat × Nat) : String := normalize_episode_number k.1 k.2

/-- Season/episode key a video filename contributes to the episode
table: its cached episode string parsed back to integers (the
composition performed by `build_episode_context`). -/
def videoKey (v : String) : Option (Nat × Nat) :=
  (get_episode_number_cached v).bind parseKeyOfEp

/-- Test for a captured digit run shaped like a `YEAR_PATTERN` release
year: exactly four characters starting `19` or `20`. -/
def yearLike (g : List Char) : Bool :=
  match g with
  | [a, b, _, _] => (a == '1' && b == '9') || (a == '2' && b == '0')
  | _ => false

/-- Invariant of `build_episode_context`'s loop state: every recorded
episode string is the canonical normalization of its key and has a
video recorded for it, and keys without a record have no video recorded
under their canonical string. -/
def becInv (ve : List ((Nat × Nat) × String)) (tvd : List (String × String)) : Prop :=
  (∀ k, alookup ve k = none → alookup tvd (normKey k) = none) ∧
  (∀ k es, alookup ve k = some es → es = normKey k ∧ (alookup tvd es).isSome = true)

/-! Basic facts about decimal rendering and parsing. -/

theorem isDig_digitChar : ∀ d < 10, isDig (Nat.digitChar d) = true := by decide

theorem toNat_digitChar : ∀ d < 10, (Nat.digitChar d).toNat = 48 + d := by decide

theorem natStrAux_congr :
    ∀ f₁ f₂ n, n < f₁ → n < f₂ → natStrAux f₁ n = natStrAux f₂ n := by
  intro f₁
  induction f₁ with
  | zero => intro f₂ n h _; exact absurd h (Nat.not_lt_zero n)
  | succ k ih =>
    intro f₂ n h1 h2
    cases f₂ with
    | zero => exact absurd h2 (Nat.not_lt_zero n)
    | succ m =>
      simp only [natStrAux]
      by_cases hn : n < 10
      · simp [hn]
      · have hdiv : n / 10 < n := Nat.div_lt_self (by omega) (by omega)
        simp only [if_neg hn]
        rw [ih m (n / 10) (by omega) (by omega)]

theorem natStrAux_ne_nil : ∀ fuel n, n < fuel → natStrAux fuel n ≠ [] := by
  intro fuel
  induction fuel with
  | zero => intro n h; exact absurd h (Nat.not_lt_zero n)
  | succ k ih =>
    intro n h
    simp only [natStrAux]
    by_cases hn : n < 10
    · simp [hn]
    · have hdiv : n / 10 < n := Nat.div_lt_self (by omega) (by omega)
      simp only [if_neg hn]
      simp [ih (n / 10) (by omega)]

theorem natStrAux_digits :
    ∀ fuel n, n < fuel → ∀ c ∈ natStrAux fuel n, isDig c = true := by
  intro fuel
  induction fuel with
  | zero => intro n h; exact absurd h (Nat.not_lt_zero n)
  | succ k ih =>
    intro n h c hc
    simp only [natStrAux] at hc
    by_cases hn : n < 10
    · simp [hn] at hc
      subst hc; exact isDig_digitChar n hn
    · have hdiv : n / 10 < n := Nat.div_lt_self (by omega) (by omega)
      simp only [if_neg hn, List.mem_append, List.mem_singleton] at hc
      rcases hc with hc | hc
      · exact ih (n / 10) (by omega) c hc
      · subst hc; exact isDig_digitChar (n % 10) (Nat.mod_lt n (by omega))

theorem digitsToNat_append_digit (xs : List Char) (c : Char) :
    digitsToNat (xs ++ [c]) = 10 * digitsToNat xs + (c.toNat - 48) := by
  simp [digitsToNat, List.foldl_append]

theorem digitsToNat_natStrAux :
    ∀ fuel n, n < fuel → digitsToNat (natStrAux fuel n) = n := by
  intro fuel
  induction fuel with
  | zero => intro n h; exact absurd h (Nat.not_lt_zero n)
  | succ k ih =>
    intro n h
    simp only [natStrAux]
    by_cases hn : n < 10
    · simp only [if_pos hn]
      have h48 := toNat_digitChar n hn
      simp [digitsToNat, h48]
    · have hdiv : n / 10 < n := Nat.div_lt_self (by omega) (by omega)
      simp only [if_neg hn]
      rw [digitsToNat_append_digit, ih (n / 10) (by omega),
        toNat_digitChar (n % 10) (Nat.mod_lt n (by omega))]
      omega

theorem natStr_data (n : Nat) : (natStr n).data = natStrAux (n + 1) n := rfl

theorem natStr_ne_nil (n : Nat) : (natStr n).data ≠ [] :=
  natStrAux_ne_nil (n + 1) n (Nat.lt_succ_self n)

theorem natStr_digits (n : Nat) : ∀ c ∈ (natStr n).data, isDig c = true :=
  natStrAux_digits (n + 1) n (Nat.lt_succ_self n)

theorem digitsToNat_natStr (n : Nat) : digitsToNat (natStr n).data = n :=
  digitsToNat_natStrAux (n + 1) n (Nat.lt_succ_self n)

theorem natStr_data_lt10 (n : Nat) (h : n < 10) : (natStr n).data = [Nat.digitChar n] := by
  simp [natStr, natStrAux, h]

theorem str_data_append (a b : String) : (a ++ b).data = a.data ++ b.data := rfl

theorem padStr_data (n : Nat) :
    (padStr n).data = if n < 10 then '0' :: (natStr n).data else (natStr n).data := by
  unfold padStr
  by_cases h : n < 10 <;> simp [h, str_data_append]

theorem padStr_ne_nil (n : Nat) : (padStr n).data ≠ [] := by
  rw [padStr_data]
  by_cases h : n < 10 <;> simp [h, natStr_ne_nil]

theorem padStr_digits (n : Nat) : ∀ c ∈ (padStr n).data, isDig c = true := by
  rw [padStr_data]
  by_cases h : n < 10
  · simp only [if_pos h]
    intro c hc
    rcases List.mem_cons.mp hc with hc | hc
    · subst hc; decide
    · exact natStr_digits n c hc
  · simp only [if_neg h]
    exact natStr_digits n

theorem digitsToNat_cons_zero (ds : List Char) :
    digitsToNat ('0' :: ds) = digitsToNat ds := by
  simp [digitsToNat]

theorem digitsToNat_padStr (n : Nat) : digitsToNat (padStr n).data = n := by
  rw [padStr_data]
  by_cases h : n < 10
  · simp only [if_pos h]
    rw [digitsToNat_cons_zero, digitsToNat_natStr]
  · simp only [if_neg h]
    exact digitsToNat_natStr n

theorem padStr_length (n : Nat) : 2 ≤ (padStr n).length := by
  show 2 ≤ (padStr n).data.length
  rw [padStr_data]
  by_cases h : n < 10
  · simp only [if_pos h, List.length_cons, natStr_data_lt10 n h]
    simp
  · simp only [if_neg h, natStr_data]
    have : natStrAux (n + 1) n = natStrAux n (n / 10) ++ [Nat.digitChar (n % 10)] := by
      simp only [natStrAux]
      rw [if_neg h]
    rw [this, List.length_append]
    have hdiv : n / 10 < n := Nat.div_lt_self (by omega) (by omega)
    have hne := natStrAux_ne_nil n (n / 10) (by omega)
    have : 1 ≤ (natStrAux n (n / 10)).length := by
      cases hx : natStrAux n (n / 10) with
      | nil => exact absurd hx hne
      | cons a l => simp
    simp only [List.length_singleton]
    omega

/-! Facts about the anchored `S(\d+)E(\d+)` parse. -/

theorem takeWhile_append_stop (p : Char → Bool) (xs : List Char) (y : Char) (ys : List Char)
    (hall : ∀ c ∈ xs, p c = true) (hy : p y = false) :
    (xs ++ y :: ys).takeWhile p = xs ∧ (xs ++ y :: ys).dropWhile p = y :: ys := by
  induction xs with
  | nil => simp [List.takeWhile_cons, List.dropWhile_cons, hy]
  | cons x xs ih =>
    have hx : p x = true := hall x (List.mem_cons_self x xs)
    have hxs : ∀ c ∈ xs, p c = true := fun c hc => hall c (List.mem_cons_of_mem x hc)
    have := ih hxs
    simp [List.takeWhile_cons, List.dropWhile_cons, hx, this.1, this.2]

theorem takeWhile_all_eq (p : Char → Bool) (xs : List Char)
    (hall : ∀ c ∈ xs, p c = true) : xs.takeWhile p = xs := by
  induction xs with
  | nil => rfl
  | cons x xs ih =>
    have hx : p x = true := hall x (List.mem_cons_self x xs)
    have hxs : ∀ c ∈ xs, p c = true := fun c hc => hall c (List.mem_cons_of_mem x hc)
    simp [List.takeWhile_cons, hx, ih hxs]

theorem parseSE_shape (s0 e0 : Char) (ds es rest : List Char)
    (hs0 : s0 = 'S' ∨ s0 = 's') (he0 : e0 = 'E' ∨ e0 = 'e')
    (hds : ds ≠ []) (hes : es ≠ [])
    (hdsd : ∀ c ∈ ds, isDig c = true) (hesd : ∀ c ∈ es, isDig c = true)
    (hrest : ∀ c, rest.head? = some c → isDig c = false) :
    parseSE (s0 :: (ds ++ e0 :: (es ++ rest))) = some (ds, es) := by
  have hE : isDig e0 = false := by rcases he0 with h | h <;> subst h <;> decide
  have htk := takeWhile_append_stop isDig ds e0 (es ++ rest) hdsd hE
  have hcond : (s0 == 'S' || s0 == 's') = true := by
    rcases hs0 with h | h <;> subst h <;> decide
  have hcondE : (e0 == 'E' || e0 == 'e') = true := by
    rcases he0 with h | h <;> subst h <;> decide
  have hdsEmpty : ds.isEmpty = false := by
    cases ds with
    | nil => exact absurd rfl hds
    | cons a l => rfl
  have hesEmpty : es.isEmpty = false := by
    cases es with
    | nil => exact absurd rfl hes
    | cons a l => rfl
  have htkEs : (es ++ rest).takeWhile isDig = es := by
    cases hr : rest with
    | nil => rw [hr] at *; rw [List.append_nil]; exact takeWhile_all_eq isDig es hesd
    | cons c cs =>
      have hcdig : isDig c = false := hrest c (by rw [hr]; rfl)
      exact (takeWhile_append_stop isDig es c cs hesd hcdig).1
  simp only [parseSE, hcond, if_true, htk.1, htk.2, hdsEmpty, Bool.false_eq_true,
    if_false, hcondE, htkEs, hesEmpty]

theorem string_mk_data (s : String) : (⟨s.data⟩ : String) = s := rfl

theorem normalize_data (s e : Nat) :
    (normalize_episode_number s e).data =
      'S' :: (padStr s).data ++ 'E' :: (padStr e).data := by
  have hS0 : ("S0" : String).data = ['S', '0'] := rfl
  have hS : ("S" : String).data = ['S'] := rfl
  have hE0 : ("E0" : String).data = ['E', '0'] := rfl
  have hE : ("E" : String).data = ['E'] := rfl
  unfold normalize_episode_number
  rw [padStr_data, padStr_data]
  by_cases hs : s < 10 <;> by_cases he : e < 10 <;>
    simp [hs, he, str_data_append, hS0, hS, hE0, hE]

theorem extract_sep_normalize (s e : Nat) :
    extract_season_episode_numbers (normalize_episode_number s e) =
      (padStr s, padStr e) := by
  unfold extract_season_episode_numbers
  rw [normalize_data]
  have := parseSE_shape 'S' 'E' (padStr s).data (padStr e).data []
    (Or.inl rfl) (Or.inl rfl) (padStr_ne_nil s) (padStr_ne_nil e)
    (padStr_digits s) (padStr_digits e) (by intro c h; cases h)
  rw [List.append_nil] at this
  rw [List.cons_append, this]

theorem parseKey_normalize (s e : Nat) :
    parseKeyOfEp (normalize_episode_number s e) = some (s, e) := by
  unfold parseKeyOfEp
  rw [extract_sep_normalize]
  have hs : padStr s ≠ "" := by
    intro h
    exact padStr_ne_nil s (by rw [h])
  have he : padStr e ≠ "" := by
    intro h
    exact padStr_ne_nil e (by rw [h])
  simp [hs, he, digitsToNat_padStr]

theorem renormalize_normalize (s e : Nat) :
    renormalize (normalize_episode_number s e) = normalize_episode_number s e := by
  unfold renormalize
  rw [extract_sep_normalize]
  simp [digitsToNat_padStr]

theorem normalize_injective {s e s' e' : Nat}
    (h : normalize_episode_number s e = normalize_episode_number s' e') :
    s = s' ∧ e = e' := by
  have h1 := parseKey_normalize s e
  rw [h, parseKey_normalize s' e'] at h1
  have h2 : (s', e') = (s, e) := Option.some.inj h1
  exact ⟨(Prod.ext_iff.mp h2).1.symm, (Prod.ext_iff.mp h2).2.symm⟩

/-- C3.  Normalizer round trip: for every pair of integers
`season ≥ 1` and `episode ≥ 1`, `extract_season_episode_numbers`
applied to `normalize_episode_number season episode` returns exactly
the decimal strings of `season` and `episode` zero-padded to width at
least 2 (`padStr`; values ≥ 100 are never truncated, as the parse-back
conjuncts show), and parsing those strings back as integers yields the
original `season` and `episode`. -/
theorem c3_normalizer_round_trip (season episode : Nat)
    (hs : 1 ≤ season) (he : 1 ≤ episode) :
    extract_season_episode_numbers (normalize_episode_number season episode) =
      (padStr season, padStr episode) ∧
    2 ≤ (padStr season).length ∧ 2 ≤ (padStr episode).length ∧
    digitsToNat (padStr season).data = season ∧
    digitsToNat (padStr episode).data = episode :=
  ⟨extract_sep_normalize season episode, padStr_length season, padStr_length episode,
    digitsToNat_padStr season, digitsToNat_padStr episode⟩

/-- Witness for C3 at `(season, episode) = (1, 105)`: the episode value
is above 99 and is not truncated. -/
theorem c3_normalizer_round_trip_witness :
    extract_season_episode_numbers (normalize_episode_number 1 105) =
      (padStr 1, padStr 105) ∧
    2 ≤ (padStr 1).length ∧ 2 ≤ (padStr 105).length ∧
    digitsToNat (padStr 1).data = 1 ∧
    digitsToNat (padStr 105).data = 105 :=
  c3_normalizer_round_trip 1 105 (by decide) (by decide)

/-! Rule-order facts for the matcher. -/

theorem extractGo_append (rules₁ rules₂ : List Rule) (s : List Char) :
    extractGo (rules₁ ++ rules₂) s =
      match extractGo rules₁ s with
      | some v => some v
      | none => extractGo rules₂ s := by
  induction rules₁ with
  | nil => simp [extractGo]
  | cons q rules₁ ih =>
    obtain ⟨nm, r, fmt⟩ := q
    show extractGo ((nm, r, fmt) :: (rules₁ ++ rules₂)) s = _
    simp only [extractGo]
    cases runRule r fmt s with
    | some v => rfl
    | none => exact ih

theorem extractGo_none_of_all (rules : List Rule) (s : List Char)
    (h : ∀ q ∈ rules, runRule q.2.1 q.2.2 s = none) :
    extractGo rules s = none := by
  induction rules with
  | nil => rfl
  | cons q rules ih =>
    obtain ⟨nm, r, fmt⟩ := q
    have h1 : runRule r fmt s = none := h (nm, r, fmt) (List.mem_cons_self _ _)
    have h2 : ∀ q ∈ rules, runRule q.2.1 q.2.2 s = none :=
      fun q hq => h q (List.mem_cons_of_mem _ hq)
    simp only [extractGo, h1, ih h2]

/-- C2.  Rule precedence, first rule wins: whenever the rule table
splits as `pre ++ rule :: post` and no rule of `pre` produces a result
on a filename while `rule` does, `extract_episode_info` returns exactly
`rule`'s extraction.  The witness instantiates this at the spec's
example `"Show.S01E05.Season 1 Episode 5.mkv"`, where the strict
`S##E##` rule (the head of the table) fires with `(1, 5)` even though
looser rules also match the embedded `"Season 1 Episode 5"` text. -/
theorem c2_rule_precedence_first_wins (name : String) (pre post : List Rule)
    (nm : String) (r : RE) (fmt : Caps → Option (Nat × Nat)) (v : Nat × Nat)
    (htable : EPISODE_PATTERNS = pre ++ (nm, r, fmt) :: post)
    (hpre : ∀ q ∈ pre, runRule q.2.1 q.2.2 name.data = none)
    (hrule : runRule r fmt name.data = some v) :
    extract_episode_info name = some v := by
  unfold extract_episode_info
  rw [htable, extractGo_append, extractGo_none_of_all pre name.data hpre]
  simp only [extractGo, hrule]

/-- Witness for C2: the spec's precedence example resolves to `(1, 5)`,
i.e. `S01E05`, through the first rule of the table. -/
theorem c2_rule_precedence_first_wins_witness :
    extract_episode_info "Show.S01E05.Season 1 Episode 5.mkv" = some (1, 5) := by
  refine c2_rule_precedence_first_wins _ [] (EPISODE_PATTERNS.drop 1) "S##E##" p01 fmtG1G2
    (1, 5) rfl ?_ ?_
  · intro q hq
    cases hq
  · decide

/-- C1.  Final-season resolution.  Conjuncts: (a) if the subtitle
carries the "FINAL SEASON" marker, its detected season is 1, and the
video's detected season `s2` is not 1, the subtitle's season is
rewritten to `s2` (episode unchanged) and the normalized identifiers
are returned iff equal, else `(none, none)`; (b) the symmetric video
rule; (c) and (d) extraction failure on either side yields
`(none, none)`; (e) and (f) the spec's concrete examples. -/
theorem c1_final_season_resolution :
    (∀ (sub vid : String) (e1 s2 e2 : Nat),
      extract_episode_info sub = some (1, e1) →
      extract_episode_info vid = some (s2, e2) →
      detect_final_season_keyword sub = true → s2 ≠ 1 →
      match_subtitle_to_video sub vid =
        if normalize_episode_number s2 e1 = normalize_episode_number s2 e2 then
          (some (normalize_episode_number s2 e1), some (normalize_episode_number s2 e2))
        else (none, none)) ∧
    (∀ (sub vid : String) (s1 e1 e2 : Nat),
      extract_episode_info sub = some (s1, e1) →
      extract_episode_info vid = some (1, e2) →
      detect_final_season_keyword vid = true → s1 ≠ 1 →
      match_subtitle_to_video sub vid =
        if normalize_episode_number s1 e1 = normalize_episode_number s1 e2 then
          (some (normalize_episode_number s1 e1), some (normalize_episode_number s1 e2))
        else (none, none)) ∧
    (∀ sub vid : String, extract_episode_info sub = none →
      match_subtitle_to_video sub vid = (none, none)) ∧
    (∀ sub vid : String, extract_episode_info vid = none →
      match_subtitle_to_video sub vid = (none, none)) ∧
    match_subtitle_to_video "Show FINAL SEASON - 01.ass" "Show.S08E01.mkv" =
      (some "S08E01", some "S08E01") ∧
    match_subtitle_to_video "Show FINAL SEASON - 01.ass" "Show.S08E02.mkv" =
      (none, none) := by
  refine ⟨?_, ?_, ?_, ?_, by decide, by decide⟩
  · intro sub vid e1 s2 e2 h1 h2 hdet hs2
    simp [match_subtitle_to_video, h1, h2, hdet, hs2]
  · intro sub vid s1 e1 e2 h1 h2 hdet hs1
    simp [match_subtitle_to_video, h1, h2, hdet, hs1]
  · intro sub vid h
    cases h2 : extract_episode_info vid <;>
      simp [match_subtitle_to_video, h, h2]
  · intro sub vid h
    cases h2 : extract_episode_info sub <;>
      simp [match_subtitle_to_video, h, h2]

/-- Witness for C1: conjunct (a) applied at the spec's example pair
(subtitle season defaulted to 1, video season 8, episodes matching). -/
theorem c1_final_season_resolution_witness :
    match_subtitle_to_video "Show FINAL SEASON - 01.ass" "Show.S08E01.mkv" =
      (some (normalize_episode_number 8 1), some (normalize_episode_number 8 1)) := by
  have h := c1_final_season_resolution.1 "Show FINAL SEASON - 01.ass" "Show.S08E01.mkv"
    1 8 1 (by decide) (by decide) (by decide) (by decide)
  rw [if_pos rfl] at h
  exact h

/-- C7.  Movie-mode trigger condition: the movie-mode fallback's guard
requires `renamed_count = 0` together with exactly one
episode-pattern-free video and one episode-pattern-free subtitle; in
particular it implies the spec's disjunction, and the fallback never
runs once episode-based matching has renamed at least one subtitle. -/
theorem c7_movie_mode_trigger (video_files subtitle_files : List String) :
    (movieModeTriggerCondition video_files subtitle_files = true →
      renamedCount subtitle_files (build_episode_context video_files).1
          (build_episode_context video_files).2 = 0 ∧
        ((∀ v ∈ video_files, get_episode_number_cached v = none) ∨
          ((remainingFiles video_files).length = 1 ∧
            (remainingFiles subtitle_files).length = 1))) ∧
    (1 ≤ renamedCount subtitle_files (build_episode_context video_files).1
        (build_episode_context video_files).2 →
      movieModeTriggerCondition video_files subtitle_files = false) := by
  constructor
  · intro h
    unfold movieModeTriggerCondition at h
    simp only [Bool.and_eq_true, beq_iff_eq] at h
    exact ⟨h.1.1, Or.inr ⟨h.1.2, h.2⟩⟩
  · intro h
    unfold movieModeTriggerCondition
    simp only [Bool.and_eq_false_iff, beq_eq_false_iff_ne]
    left; left
    omega

/-- Witness for C7 at a single pattern-free movie/subtitle pair, for
which the guard is true. -/
theorem c7_movie_mode_trigger_witness :
    renamedCount ["Movie.srt"] (build_episode_context ["Movie.mkv"]).1
        (build_episode_context ["Movie.mkv"]).2 = 0 ∧
      ((∀ v ∈ ["Movie.mkv"], get_episode_number_cached v = none) ∨
        ((remainingFiles ["Movie.mkv"]).length = 1 ∧
          (remainingFiles ["Movie.srt"]).length = 1)) :=
  (c7_movie_mode_trigger ["Movie.mkv"] ["Movie.srt"]).1 (by decide)

/-! Movie-mode matching facts (C4). -/

theorem yearScan_shape :
    ∀ (cs : List Char) (y : String), yearScan cs = some y →
      ∃ c2 c3 : Char, y.data = ['1', '9', c2, c3] ∨ y.data = ['2', '0', c2, c3] := by
  intro cs
  induction cs with
  | nil => intro y h; simp [yearScan] at h
  | cons c cs ih =>
    intro y h
    rcases cs with _ | ⟨c1, _ | ⟨c2, _ | ⟨c3, t⟩⟩⟩
    · simp [yearScan] at h
    · simp [yearScan] at h
    · simp [yearScan] at h
    · rw [show yearScan (c :: c1 :: c2 :: c3 :: t) =
          (if ((c == '1' && c1 == '9' || c == '2' && c1 == '0') && isDig c2 && isDig c3) then
            some ⟨[c, c1, c2, c3]⟩ else yearScan (c1 :: c2 :: c3 :: t)) from rfl] at h
      by_cases hc : ((c == '1' && c1 == '9' || c == '2' && c1 == '0') && isDig c2 && isDig c3) = true
      · rw [if_pos hc] at h
        obtain rfl : (⟨[c, c1, c2, c3]⟩ : String) = y := Option.some.inj h
        simp only [Bool.and_eq_true, Bool.or_eq_true, beq_iff_eq] at hc
        rcases hc with ⟨⟨⟨hc0, hc1⟩ | ⟨hc0, hc1⟩, _⟩, _⟩
        · exact ⟨c2, c3, Or.inl (by rw [hc0, hc1])⟩
        · exact ⟨c2, c3, Or.inr (by rw [hc0, hc1])⟩
      · rw [if_neg hc] at h
        exact ih y h

/-- C4.  Counterexample to the claim's "otherwise it returns no match":
the two names share the year `2020` but have no overlapping significant
word, yet `find_movie_subtitle_match` declares a match (its
year-branch test `'19' in video_year or '20' in video_year` is
satisfied by every extracted year). -/
theorem c4_movie_match_counterexample :
    find_movie_subtitle_match ["Alpha2020film.mkv"] ["Beta2020x.srt"] =
      some ("Alpha2020film.mkv", "Beta2020x.srt") ∧
    significantWords (extract_base_name "Alpha2020film.mkv") ∩
      significantWords (extract_base_name "Beta2020x.srt") = ∅ ∧
    yearScan "Alpha2020film.mkv".data = some "2020" ∧
    yearScan "Beta2020x.srt".data = some "2020" := by
  refine ⟨?_, by decide, by decide, by decide⟩
  decide

/-- C4 (amended).  Movie-mode match condition as the code implements
it: for single files, a shared 4-digit year alone declares a match
(every extracted year contains `19` or `20`, so the overlap test on the
year branch is vacuous); absent a shared year, a match requires both
files to have at least one significant word and either overlap ratio
at least 3/10 or any overlap at all.  Non-singleton inputs never
match. -/
theorem c4_movie_match_amended :
    (∀ video subtitle : String,
      find_movie_subtitle_match [video] [subtitle] =
        if (yearScan video.data).isSome ∧ (yearScan subtitle.data).isSome ∧
            yearScan video.data = yearScan subtitle.data then
          some (video, subtitle)
        else
          (let vw := significantWords (extract_base_name video)
           let sw := significantWords (extract_base_name subtitle)
           let cw := vw ∩ sw
           if 0 < vw.card ∧ 0 < sw.card then
             if ((cw.card : ℚ) / (min vw.card sw.card : ℚ) ≥ 3 / 10) ∨ 0 < cw.card then
               some (video, subtitle)
             else none
           else none)) ∧
    (∀ video_files subtitle_files : List String,
      video_files.length ≠ 1 ∨ subtitle_files.length ≠ 1 →
      find_movie_subtitle_match video_files subtitle_files = none) := by
  constructor
  · intro video subtitle
    simp only [find_movie_subtitle_match]
    by_cases hy : (yearScan video.data).isSome ∧ (yearScan subtitle.data).isSome ∧
        yearScan video.data = yearScan subtitle.data
    · rw [if_pos hy, if_pos hy]
      obtain ⟨y, hy1⟩ := Option.isSome_iff_exists.mp hy.1
      obtain ⟨c2, c3, hsh⟩ := yearScan_shape video.data y hy1
      have hcontains :
          (containsSeq "19".data y.data || containsSeq "20".data y.data) = true := by
        rcases hsh with h | h <;> rw [h] <;> simp [containsSeq, leadsWith]
      rw [if_pos (Or.inr (by rw [hy1]; simpa [Option.any] using hcontains))]
    · rw [if_neg hy, if_neg hy]
  · intro video_files subtitle_files h
    match video_files, subtitle_files with
    | [], _ => rfl
    | v :: v' :: t, _ => rfl
    | [v], [] => rfl
    | [v], s :: s' :: t => rfl
    | [v], [s] => simp at h

/-- Witness for C4 (amended): the non-singleton guard at a concrete
empty video list. -/
theorem c4_movie_match_amended_witness :
    find_movie_subtitle_match [] ["Beta2020x.srt"] = none :=
  c4_movie_match_amended.2 [] ["Beta2020x.srt"] (by decide)

/-! Inversion of the anchored `S(\d+)E(\d+)` parse (C10). -/

theorem mem_takeWhile_prop (p : Char → Bool) :
    ∀ (l : List Char) (c : Char), c ∈ l.takeWhile p → p c = true := by
  intro l
  induction l with
  | nil => intro c hc; cases hc
  | cons x xs ih =>
    intro c hc
    rw [List.takeWhile_cons] at hc
    by_cases hx : p x = true
    · rw [if_pos hx] at hc
      rcases List.mem_cons.mp hc with rfl | hc
      · exact hx
      · exact ih c hc
    · rw [if_neg hx] at hc
      cases hc

theorem parseSE_inv (cs ds es : List Char) (h : parseSE cs = some (ds, es)) :
    ∃ s0 rest, cs = s0 :: rest ∧ (s0 = 'S' ∨ s0 = 's') ∧
      ds = rest.takeWhile isDig ∧ ds ≠ [] ∧
      ∃ e0 rest2, rest.dropWhile isDig = e0 :: rest2 ∧ (e0 = 'E' ∨ e0 = 'e') ∧
        es = rest2.takeWhile isDig ∧ es ≠ [] := by
  cases cs with
  | nil => simp [parseSE] at h
  | cons c rest =>
    simp only [parseSE] at h
    by_cases hc : (c == 'S' || c == 's') = true
    case neg => rw [if_neg hc] at h; cases h
    rw [if_pos hc] at h
    by_cases hde : (rest.takeWhile isDig).isEmpty = true
    · rw [if_pos hde] at h; cases h
    rw [if_neg hde] at h
    cases hdw : rest.dropWhile isDig with
    | nil => rw [hdw] at h; cases h
    | cons e0 rest2 =>
      rw [hdw] at h
      simp only [] at h
      by_cases he : (e0 == 'E' || e0 == 'e') = true
      case neg => rw [if_neg he] at h; cases h
      rw [if_pos he] at h
      by_cases hee : (rest2.takeWhile isDig).isEmpty = true
      · rw [if_pos hee] at h; cases h
      rw [if_neg hee] at h
      have hpair := Option.some.inj h
      have hds : ds = rest.takeWhile isDig := ((Prod.ext_iff.mp hpair).1).symm
      have hes : es = rest2.takeWhile isDig := ((Prod.ext_iff.mp hpair).2).symm
      refine ⟨c, rest, rfl, ?_, hds, ?_, e0, rest2, hdw, ?_, hes, ?_⟩
      · simpa using hc
      · intro hnil
        rw [hnil] at hds
        exact hde (by rw [← hds]; rfl)
      · simpa using he
      · intro hnil
        rw [hnil] at hes
        exact hee (by rw [← hes]; rfl)

/-- C10.  Totality and prefix shape of `extract_season_episode_numbers`:
(a) every string of the form letter `S`/`s`, one or more digits, letter
`E`/`e`, one or more digits, then arbitrary trailing text not starting
with a further digit, parses to exactly those two digit substrings; (b)
the empty string yields `("", "")`; (c) any string lacking that prefix
shape yields `("", "")`.  The function is a total Lean function, so it
never raises. -/
theorem c10_parser_total_prefix :
    (∀ (s0 e0 : Char) (ds es rest : List Char),
      (s0 = 'S' ∨ s0 = 's') → (e0 = 'E' ∨ e0 = 'e') →
      ds ≠ [] → es ≠ [] →
      (∀ c ∈ ds, isDig c = true) → (∀ c ∈ es, isDig c = true) →
      (∀ c, rest.head? = some c → isDig c = false) →
      extract_season_episode_numbers ⟨s0 :: (ds ++ e0 :: (es ++ rest))⟩ = (⟨ds⟩, ⟨es⟩)) ∧
    extract_season_episode_numbers "" = ("", "") ∧
    (∀ s : String,
      (¬ ∃ (s0 e0 : Char) (ds es rest : List Char),
        s.data = s0 :: (ds ++ e0 :: (es ++ rest)) ∧ (s0 = 'S' ∨ s0 = 's') ∧
        (e0 = 'E' ∨ e0 = 'e') ∧ ds ≠ [] ∧ es ≠ [] ∧
        (∀ c ∈ ds, isDig c = true) ∧ (∀ c ∈ es, isDig c = true)) →
      extract_season_episode_numbers s = ("", "")) := by
  refine ⟨?_, rfl, ?_⟩
  · intro s0 e0 ds es rest hs0 he0 hds hes hdsd hesd hrest
    unfold extract_season_episode_numbers
    have : (⟨s0 :: (ds ++ e0 :: (es ++ rest))⟩ : String).data =
        s0 :: (ds ++ e0 :: (es ++ rest)) := rfl
    rw [this, parseSE_shape s0 e0 ds es rest hs0 he0 hds hes hdsd hesd hrest]
  · intro s hshape
    cases hx : parseSE s.data with
    | none => unfold extract_season_episode_numbers; rw [hx]
    | some p =>
      exfalso
      apply hshape
      obtain ⟨ds, es⟩ := p
      obtain ⟨s0, rest, hcs, hs0, hds, hdsne, e0, rest2, hdw, he0, hes, hesne⟩ :=
        parseSE_inv s.data ds es hx
      refine ⟨s0, e0, ds, es, rest2.dropWhile isDig, ?_, hs0, he0, hdsne, hesne, ?_, ?_⟩
      · rw [hcs, hes, List.takeWhile_append_dropWhile, ← hdw, hds,
          List.takeWhile_append_dropWhile]
      · intro c hc
        rw [hds] at hc
        exact mem_takeWhile_prop isDig rest c hc
      · intro c hc
        rw [hes] at hc
        exact mem_takeWhile_prop isDig rest2 c hc

/-- Witness for C10: conjunct (a) at `"S01E05x264"`, where the trailing
text `x264` follows the episode digits. -/
theorem c10_parser_total_prefix_witness :
    extract_season_episode_numbers "S01E05x264" = ("01", "05") := by
  have h := c10_parser_total_prefix.1 'S' 'E' "01".data "05".data "x264".data
    (Or.inl rfl) (Or.inl rfl) (by decide) (by decide) (by decide) (by decide)
    (by intro c hc; simp at hc; subst hc; decide)
  have e1 : (⟨'S' :: ("01".data ++ 'E' :: ("05".data ++ "x264".data))⟩ : String) =
      "S01E05x264" := by decide
  rw [e1] at h
  exact h

/-! Inversion lemmas for the regex engine (C6). -/

theorem mem_mrun_seq {a b : RE} {st st' : MState} (h : st' ∈ mrun (.seq a b) st) :
    ∃ st₁, st₁ ∈ mrun a st ∧ st' ∈ mrun b st₁ := by
  simpa only [mrun, List.mem_flatMap] using h

theorem mem_mrun_alt {a b : RE} {st st' : MState} (h : st' ∈ mrun (.alt a b) st) :
    st' ∈ mrun a st ∨ st' ∈ mrun b st := by
  simpa only [mrun, List.mem_append] using h

theorem mem_mrun_opt {a : RE} {st st' : MState} (h : st' ∈ mrun (.opt a) st) :
    st' ∈ mrun a st ∨ st' = st := by
  rcases List.mem_append.mp h with h | h
  · exact Or.inl h
  · exact Or.inr (List.mem_singleton.mp h)

theorem mem_mrun_cls {p : Char → Bool} {st st' : MState} (h : st' ∈ mrun (.cls p) st) :
    ∃ c rs, st.rest = c :: rs ∧ p c = true ∧ st' = ⟨c :: st.left, rs, st.caps⟩ := by
  obtain ⟨left, rest, caps⟩ := st
  cases rest with
  | nil => simp [mrun] at h
  | cons c rs =>
    simp only [mrun] at h
    by_cases hp : p c = true
    · rw [if_pos hp] at h
      exact ⟨c, rs, rfl, hp, List.mem_singleton.mp h⟩
    · rw [if_neg hp] at h; cases h

theorem mem_mrun_nla {p : Char → Bool} {st st' : MState} (h : st' ∈ mrun (.nla p) st) :
    st' = st ∧ st.rest.head?.all (fun c => !(p c)) = true := by
  obtain ⟨left, rest, caps⟩ := st
  cases rest with
  | nil => simp only [mrun] at h; exact ⟨List.mem_singleton.mp h, by simp⟩
  | cons c cs =>
    simp only [mrun] at h
    by_cases hp : p c = true
    · rw [if_pos hp] at h; cases h
    · rw [if_neg hp] at h
      refine ⟨List.mem_singleton.mp h, ?_⟩
      simp only [List.head?_cons, Option.all_some]
      simp only [Bool.not_eq_true] at hp
      simp [hp]

theorem mem_mrun_group {n : Nat} {a : RE} {st st' : MState}
    (h : st' ∈ mrun (.group n a) st) :
    ∃ st₁, st₁ ∈ mrun a st ∧
      st' = ⟨st₁.left, st₁.rest,
        (n, (st₁.left.take (st₁.left.length - st.left.length)).reverse) :: st₁.caps⟩ := by
  simp only [mrun, List.mem_map] at h
  obtain ⟨st₁, h1, h2⟩ := h
  exact ⟨st₁, h1, h2.symm⟩

theorem starRun_spec (p : Char → Bool) :
    ∀ (rest left : List Char) (lr : List Char × List Char), lr ∈ starRun p left rest →
      ∃ taken, lr.1 = taken ++ left ∧ rest = taken.reverse ++ lr.2 := by
  intro rest
  induction rest with
  | nil =>
    intro left lr h
    simp only [starRun, List.mem_singleton] at h
    exact ⟨[], by simp [h]⟩
  | cons c rs ih =>
    intro left lr h
    simp only [starRun] at h
    by_cases hp : p c = true
    · rw [if_pos hp] at h
      rcases List.mem_append.mp h with h | h
      · obtain ⟨taken, h1, h2⟩ := ih (c :: left) lr h
        refine ⟨taken ++ [c], ?_, ?_⟩
        · rw [h1, List.append_assoc, List.singleton_append]
        · rw [List.reverse_append, List.reverse_singleton, List.singleton_append, h2]
          exact (List.cons_append _ _ _).symm
      · exact ⟨[], by simp [List.mem_singleton.mp h]⟩
    · rw [if_neg hp] at h
      exact ⟨[], by simp [List.mem_singleton.mp h]⟩

theorem mem_mrun_starC {p : Char → Bool} {st st' : MState}
    (h : st' ∈ mrun (.starC p) st) :
    ∃ taken, st'.left = taken ++ st.left ∧ st.rest = taken.reverse ++ st'.rest ∧
      st'.caps = st.caps := by
  simp only [mrun, List.mem_map] at h
  obtain ⟨lr, hlr, hst⟩ := h
  obtain ⟨taken, h1, h2⟩ := starRun_spec p st.rest st.left lr hlr
  exact ⟨taken, by rw [← hst]; exact h1, by rw [← hst]; exact h2, by rw [← hst]⟩

theorem mrun_consumes :
    ∀ (r : RE) (st st' : MState), st' ∈ mrun r st →
      ∃ taken, st'.left = taken ++ st.left ∧ st.rest = taken.reverse ++ st'.rest := by
  intro r
  induction r with
  | eps =>
    intro st st' h
    exact ⟨[], by simp [List.mem_singleton.mp h]⟩
  | cls p =>
    intro st st' h
    obtain ⟨c, rs, h1, _, h3⟩ := mem_mrun_cls h
    exact ⟨[c], by simp [h1, h3]⟩
  | seq a b iha ihb =>
    intro st st' h
    obtain ⟨st₁, h1, h2⟩ := mem_mrun_seq h
    obtain ⟨t1, ha1, ha2⟩ := iha st st₁ h1
    obtain ⟨t2, hb1, hb2⟩ := ihb st₁ st' h2
    refine ⟨t2 ++ t1, ?_, ?_⟩
    · rw [hb1, ha1, List.append_assoc]
    · rw [ha2, hb2, List.reverse_append, List.append_assoc]
  | alt a b iha ihb =>
    intro st st' h
    rcases mem_mrun_alt h with h | h
    · exact iha st st' h
    · exact ihb st st' h
  | opt a iha =>
    intro st st' h
    rcases mem_mrun_opt h with h | h
    · exact iha st st' h
    · exact ⟨[], by simp [h]⟩
  | starC p =>
    intro st st' h
    obtain ⟨taken, h1, h2, _⟩ := mem_mrun_starC h
    exact ⟨taken, h1, h2⟩
  | group n a iha =>
    intro st st' h
    obtain ⟨st₁, h1, h2⟩ := mem_mrun_group h
    obtain ⟨taken, ha1, ha2⟩ := iha st st₁ h1
    exact ⟨taken, by rw [h2]; exact ha1, by rw [h2]; exact ha2⟩
  | nla p =>
    intro st st' h
    exact ⟨[], by simp [(mem_mrun_nla h).1]⟩
  | sepOrEnd p =>
    intro st st' h
    obtain ⟨left, rest, caps⟩ := st
    cases rest with
    | nil =>
      simp only [mrun] at h
      exact ⟨[], by simp [List.mem_singleton.mp h]⟩
    | cons c cs =>
      simp only [mrun] at h
      by_cases hp : p c = true
      · rw [if_pos hp] at h; exact ⟨[], by simp [List.mem_singleton.mp h]⟩
      · rw [if_neg hp] at h; cases h
  | nlb p =>
    intro st st' h
    obtain ⟨left, rest, caps⟩ := st
    cases left with
    | nil =>
      simp only [mrun] at h
      exact ⟨[], by simp [List.mem_singleton.mp h]⟩
    | cons c cs =>
      simp only [mrun] at h
      by_cases hp : p c = true
      · rw [if_pos hp] at h; cases h
      · rw [if_neg hp] at h; exact ⟨[], by simp [List.mem_singleton.mp h]⟩
  | bos =>
    intro st st' h
    obtain ⟨left, rest, caps⟩ := st
    cases left with
    | nil =>
      simp only [mrun] at h
      exact ⟨[], by simp [List.mem_singleton.mp h]⟩
    | cons c cs => simp only [mrun] at h; cases h

theorem searchPos_inv (r : RE) :
    ∀ (rest left : List Char) (pos : Nat) (res : Nat × MState),
      searchPos r pos left rest = some res →
      ∃ l' r', res.2 ∈ mrun r ⟨l', r', []⟩ := by
  intro rest
  induction rest with
  | nil =>
    intro left pos res h
    simp only [searchPos] at h
    cases hx : (mrun r ⟨left, [], []⟩).head? with
    | none => rw [hx] at h; cases h
    | some st =>
      rw [hx] at h
      obtain rfl : (pos, st) = res := Option.some.inj h
      exact ⟨left, [], List.mem_of_mem_head? (hx ▸ rfl)⟩
  | cons c rs ih =>
    intro left pos res h
    simp only [searchPos] at h
    cases hx : (mrun r ⟨left, c :: rs, []⟩).head? with
    | none =>
      rw [hx] at h
      exact ih (c :: left) (pos + 1) res h
    | some st =>
      rw [hx] at h
      obtain rfl : (pos, st) = res := Option.some.inj h
      exact ⟨left, c :: rs, List.mem_of_mem_head? (hx ▸ rfl)⟩

theorem reSearch_inv {r : RE} {s : List Char} {st : MState}
    (h : reSearch r s = some st) : ∃ l' r', st ∈ mrun r ⟨l', r', []⟩ := by
  unfold reSearch at h
  cases hx : searchPos r 0 [] s with
  | none => rw [hx] at h; cases h
  | some res =>
    rw [hx] at h
    obtain rfl : res.2 = st := Option.some.inj h
    exact searchPos_inv r s [] 0 res hx

theorem mem_mrun_ends_nla :
    ∀ (rs : List RE) (p : Char → Bool) (st st' : MState),
      st' ∈ mrun (seqs (rs ++ [.nla p])) st →
      st'.rest.head?.all (fun c => !(p c)) = true := by
  intro rs
  induction rs with
  | nil =>
    intro p st st' h
    obtain ⟨h1, h2⟩ := mem_mrun_nla h
    rw [h1]
    exact h2
  | cons r rs ih =>
    intro p st st' h
    cases rs with
    | nil =>
      obtain ⟨st₁, _, h2⟩ := mem_mrun_seq h
      obtain ⟨rfl, hp⟩ := mem_mrun_nla h2
      exact hp
    | cons r' rs' =>
      obtain ⟨st₁, _, h2⟩ := mem_mrun_seq h
      exact ih p st₁ st' h2

/-! Consumption shape of the digit quantifiers and of `ep1899` (C6). -/

theorem mrun_d12_taken {st st' : MState} (h : st' ∈ mrun d12 st) :
    ∃ taken : List Char, st'.left = taken ++ st.left ∧
      st.rest = taken.reverse ++ st'.rest ∧
      (∀ c ∈ taken, isDig c = true) ∧ 1 ≤ taken.length ∧ taken.length ≤ 2 ∧
      st'.caps = st.caps := by
  obtain ⟨st₁, h1, h2⟩ := mem_mrun_seq h
  obtain ⟨c, rs, hr, hc, rfl⟩ := mem_mrun_cls h1
  rcases mem_mrun_opt h2 with h2 | rfl
  · obtain ⟨c2, rs2, hr2, hc2, rfl⟩ := mem_mrun_cls h2
    refine ⟨[c2, c], rfl, ?_, ?_, by simp, by simp, rfl⟩
    · rw [hr]
      simp only [MState.rest] at hr2
      rw [hr2]
      rfl
    · intro x hx
      simp only [List.mem_cons, List.not_mem_nil, or_false] at hx
      rcases hx with rfl | rfl
      · exact hc2
      · exact hc
  · refine ⟨[c], rfl, by rw [hr]; rfl, ?_, by simp, by simp, rfl⟩
    intro x hx
    simp only [List.mem_cons, List.not_mem_nil, or_false] at hx
    subst hx
    exact hc

theorem mrun_d13_taken {st st' : MState} (h : st' ∈ mrun d13 st) :
    ∃ taken : List Char, st'.left = taken ++ st.left ∧
      st.rest = taken.reverse ++ st'.rest ∧
      (∀ c ∈ taken, isDig c = true) ∧ 1 ≤ taken.length ∧ taken.length ≤ 3 ∧
      st'.caps = st.caps := by
  obtain ⟨st₁, h1, h2⟩ := mem_mrun_seq h
  obtain ⟨c, rs, hr, hc, rfl⟩ := mem_mrun_cls h1
  rcases mem_mrun_opt h2 with h2 | rfl
  · obtain ⟨st₂, h3, h4⟩ := mem_mrun_seq h2
    obtain ⟨c2, rs2, hr2, hc2, rfl⟩ := mem_mrun_cls h3
    simp only [MState.rest] at hr2
    rcases mem_mrun_opt h4 with h4 | rfl
    · obtain ⟨c3, rs3, hr3, hc3, rfl⟩ := mem_mrun_cls h4
      simp only [MState.rest] at hr3
      refine ⟨[c3, c2, c], rfl, ?_, ?_, by simp, by simp, rfl⟩
      · rw [hr, hr2, hr3]; rfl
      · intro x hx
        simp only [List.mem_cons, List.not_mem_nil, or_false] at hx
        rcases hx with rfl | rfl | rfl
        · exact hc3
        · exact hc2
        · exact hc
    · refine ⟨[c2, c], rfl, ?_, ?_, by simp, by simp, rfl⟩
      · rw [hr, hr2]; rfl
      · intro x hx
        simp only [List.mem_cons, List.not_mem_nil, or_false] at hx
        rcases hx with rfl | rfl
        · exact hc2
        · exact hc
  · refine ⟨[c], rfl, by rw [hr]; rfl, ?_, by simp, by simp, rfl⟩
    intro x hx
    simp only [List.mem_cons, List.not_mem_nil, or_false] at hx
    subst hx
    exact hc

theorem mrun_y1800_taken {st st' : MState}
    (h : st' ∈ mrun (seqs [chr '1', .cls (fun c => '0' ≤ c && c ≤ '8'), d1, d1]) st) :
    ∃ c1 d2 d3 : Char, ('0' ≤ c1 && c1 ≤ '8') = true ∧ isDig d2 = true ∧ isDig d3 = true ∧
      st'.left = d3 :: d2 :: c1 :: '1' :: st.left ∧
      st.rest = '1' :: c1 :: d2 :: d3 :: st'.rest ∧ st'.caps = st.caps := by
  obtain ⟨st₁, ha, h⟩ := mem_mrun_seq h
  obtain ⟨st₂, hb, h⟩ := mem_mrun_seq h
  obtain ⟨st₃, hcm, hd⟩ := mem_mrun_seq h
  obtain ⟨ca, rsa, hra, hca, rfl⟩ := mem_mrun_cls ha
  obtain ⟨cb, rsb, hrb, hcb, rfl⟩ := mem_mrun_cls hb
  obtain ⟨cc, rsc, hrc, hcc, rfl⟩ := mem_mrun_cls hcm
  obtain ⟨cd, rsd, hrd, hcd, rfl⟩ := mem_mrun_cls hd
  simp only [MState.rest] at hrb hrc hrd
  obtain rfl : ca = '1' := eq_of_beq hca
  refine ⟨cb, cc, cd, hcb, hcc, hcd, rfl, ?_, rfl⟩
  rw [hra, hrb, hrc, hrd]

theorem yearLike_short (g : List Char) (h : g.length ≤ 3) : yearLike g = false := by
  rcases g with _ | ⟨a, _ | ⟨b, _ | ⟨c, _ | ⟨d, t⟩⟩⟩⟩
  · rfl
  · rfl
  · rfl
  · rfl
  · simp at h

theorem ep1899_consumed {st st' : MState} (h : st' ∈ mrun ep1899 st) :
    ∃ taken : List Char, st'.left = taken ++ st.left ∧
      st.rest = taken.reverse ++ st'.rest ∧
      (∀ c ∈ taken.reverse, isDig c = true) ∧ yearLike taken.reverse = false ∧
      st'.caps = st.caps := by
  rcases mem_mrun_alt h with h | h
  · obtain ⟨c1, d2, d3, hr, hd2, hd3, hl, hrest, hcaps⟩ := mrun_y1800_taken h
    have h01 : '0' ≤ c1 ∧ c1 ≤ '8' := by
      simpa [Bool.and_eq_true, decide_eq_true_eq] using hr
    have hc1dig : isDig c1 = true := by
      simp only [isDig, Bool.and_eq_true, decide_eq_true_eq]
      exact ⟨h01.1, le_trans h01.2 (by decide)⟩
    have h9 : (c1 == '9') = false := by
      cases hb : c1 == '9'
      · rfl
      · exact absurd (eq_of_beq hb ▸ h01.2) (by decide)
    refine ⟨[d3, d2, c1, '1'], hl, by simpa using hrest, ?_, ?_, hcaps⟩
    · intro x hx
      show isDig x = true
      have hx' : x ∈ (['1', c1, d2, d3] : List Char) := by
        simpa using hx
      simp only [List.mem_cons, List.not_mem_nil, or_false] at hx'
      rcases hx' with rfl | rfl | rfl | rfl
      · decide
      · exact hc1dig
      · exact hd2
      · exact hd3
    · show yearLike ['1', c1, d2, d3] = false
      simp [yearLike, h9]
  · obtain ⟨taken, hl, hrest, hdig, hlen1, hlen3, hcaps⟩ := mrun_d13_taken h
    refine ⟨taken, hl, hrest, ?_, ?_, hcaps⟩
    · intro x hx
      exact hdig x (List.mem_reverse.mp hx)
    · exact yearLike_short taken.reverse (by simpa using hlen3)

/-- Lookup of the group-1 capture pushed by a `group 1` node. -/
theorem capGet_push (v : List Char) (caps : Caps) :
    capGet ((1, v) :: caps) 1 = some v := by
  simp [capGet, List.find?]

theorem p27_capture {s : List Char} {st : MState} (h : reSearch p27 s = some st) :
    ∀ g, capGet st.caps 1 = some g →
      (∀ c ∈ g, isDig c = true) ∧ yearLike g = false := by
  obtain ⟨l', r', hm⟩ := reSearch_inv h
  obtain ⟨st₁, h1, hm⟩ := mem_mrun_seq hm
  obtain ⟨st₂, h2, hm⟩ := mem_mrun_seq hm
  obtain ⟨st₃, h3, hm⟩ := mem_mrun_seq hm
  obtain ⟨rfl, _⟩ := mem_mrun_nla hm
  obtain ⟨stI, hI, hst3⟩ := mem_mrun_group h3
  obtain ⟨taken, htl, _, hdig, hyear, _⟩ := ep1899_consumed hI
  intro g hg
  rw [hst3] at hg
  simp only [MState.caps] at hg
  rw [capGet_push] at hg
  have hcap : (stI.left.take (stI.left.length - st₂.left.length)).reverse = taken.reverse := by
    rw [htl, List.length_append, Nat.add_sub_cancel, List.take_left]
  rw [hcap] at hg
  obtain rfl : taken.reverse = g := Option.some.inj hg
  exact ⟨hdig, hyear⟩

theorem p29_capture {s : List Char} {st : MState} (h : reSearch p29 s = some st) :
    ∀ g, capGet st.caps 1 = some g →
      (∀ c ∈ g, isDig c = true) ∧ yearLike g = false := by
  obtain ⟨l', r', hm⟩ := reSearch_inv h
  obtain ⟨st₁, h1, hm⟩ := mem_mrun_seq hm
  obtain ⟨st₃, h3, hm⟩ := mem_mrun_seq hm
  obtain ⟨rfl, _⟩ := mem_mrun_nla hm
  obtain ⟨stI, hI, hst3⟩ := mem_mrun_group h3
  obtain ⟨taken, htl, _, hdig, hyear, _⟩ := ep1899_consumed hI
  intro g hg
  rw [hst3] at hg
  simp only [MState.caps] at hg
  rw [capGet_push] at hg
  have hcap : (stI.left.take (stI.left.length - st₁.left.length)).reverse = taken.reverse := by
    rw [htl, List.length_append, Nat.add_sub_cancel, List.take_left]
  rw [hcap] at hg
  obtain rfl : taken.reverse = g := Option.some.inj hg
  exact ⟨hdig, hyear⟩

theorem p28_capture {s : List Char} {st : MState} (h : reSearch p28 s = some st) :
    ∀ g, capGet st.caps 1 = some g →
      (∀ c ∈ g, isDig c = true) ∧ 1 ≤ g.length ∧ g.length ≤ 2 := by
  obtain ⟨l', r', hm⟩ := reSearch_inv h
  obtain ⟨st₁, h1, hm⟩ := mem_mrun_seq hm
  obtain ⟨st₂, h2, hm⟩ := mem_mrun_seq hm
  obtain ⟨st₃, h3, hm⟩ := mem_mrun_seq hm
  obtain ⟨rfl, _⟩ := mem_mrun_nla hm
  obtain ⟨cc, rsc, hrc, hcc, rfl⟩ := mem_mrun_cls h3
  obtain ⟨stI, hI, hst2⟩ := mem_mrun_group h2
  obtain ⟨taken, htl, _, hdig, hlen1, hlen2, _⟩ := mrun_d12_taken hI
  intro g hg
  simp only [MState.caps] at hg
  rw [hst2] at hg
  simp only [MState.caps] at hg
  rw [capGet_push] at hg
  have hcap : (stI.left.take (stI.left.length - st₁.left.length)).reverse = taken.reverse := by
    rw [htl, List.length_append, Nat.add_sub_cancel, List.take_left]
  rw [hcap] at hg
  obtain rfl : taken.reverse = g := Option.some.inj hg
  refine ⟨?_, by simpa using hlen1, by simpa using hlen2⟩
  intro x hx
  exact hdig x (List.mem_reverse.mp hx)

/-- C6.  Boundary rejection for the default-season-1 rules.  General
parts: any match of the bracket rule, the dash rule or the underscore
rule leaves a next character that is not alphanumeric (their trailing
`(?![a-zA-Z0-9])`); the bracket rule's capture is always one or two
digits (so a non-numeric bracket token such as `[10bit]` can never
fire); the dash and underscore rules' captures are digit runs that are
never four digits starting `19` or `20` (so a year like `-1999` can
never become an episode).  Concrete parts: the bracket rule fails on
`"[10bit]"`, the dash rule fails on `"-1999"`, full extraction yields
nothing on `"[10bit].mkv"` and `"Movie-1999.mkv"`, and `"[07].mkv"`
extracts episode `(1, 7)`. -/
theorem c6_boundary_rejection :
    (∀ (s : List Char) (st : MState), reSearch p28 s = some st →
      st.rest.head?.all (fun c => !(isAlnum c)) = true) ∧
    (∀ (s : List Char) (st : MState) (g : List Char),
      reSearch p28 s = some st → capGet st.caps 1 = some g →
      (∀ c ∈ g, isDig c = true) ∧ 1 ≤ g.length ∧ g.length ≤ 2) ∧
    (∀ (s : List Char) (st : MState), reSearch p27 s = some st →
      st.rest.head?.all (fun c => !(isAlnum c)) = true) ∧
    (∀ (s : List Char) (st : MState) (g : List Char),
      reSearch p27 s = some st → capGet st.caps 1 = some g →
      (∀ c ∈ g, isDig c = true) ∧ yearLike g = false) ∧
    (∀ (s : List Char) (st : MState), reSearch p29 s = some st →
      st.rest.head?.all (fun c => !(isAlnum c)) = true) ∧
    (∀ (s : List Char) (st : MState) (g : List Char),
      reSearch p29 s = some st → capGet st.caps 1 = some g →
      (∀ c ∈ g, isDig c = true) ∧ yearLike g = false) ∧
    reSearch p28 "[10bit]".data = none ∧
    reSearch p27 "-1999".data = none ∧
    extract_episode_info "[10bit].mkv" = none ∧
    extract_episode_info "Movie-1999.mkv" = none ∧
    extract_episode_info "[07].mkv" = some (1, 7) := by
  refine ⟨?_, fun s st g h => p28_capture h g, ?_, fun s st g h => p27_capture h g, ?_,
    fun s st g h => p29_capture h g, by decide, by decide, by decide, by decide, by decide⟩
  · intro s st h
    obtain ⟨l', r', hm⟩ := reSearch_inv h
    exact mem_mrun_ends_nla [chr '[', .group 1 d12, chr ']'] isAlnum _ st hm
  · intro s st h
    obtain ⟨l', r', hm⟩ := reSearch_inv h
    exact mem_mrun_ends_nla [chr '-', sStar, .group 1 ep1899] isAlnum _ st hm
  · intro s st h
    obtain ⟨l', r', hm⟩ := reSearch_inv h
    exact mem_mrun_ends_nla [chr '_', .group 1 ep1899] isAlnum _ st hm

/-- Witness for C6: the bracket rule fires on `"[07].mkv"` (capture
`07`, next character `.`), and the dash rule fires on
`"Show - 15.mkv"` (capture `15`, a non-year). -/
theorem c6_boundary_rejection_witness :
    (MState.mk [']', '7', '0', '['] ['.', 'm', 'k', 'v'] [(1, ['0', '7'])]).rest.head?.all
        (fun c => !(isAlnum c)) = true ∧
    ((∀ c ∈ (['0', '7'] : List Char), isDig c = true) ∧
      1 ≤ (['0', '7'] : List Char).length ∧ (['0', '7'] : List Char).length ≤ 2) ∧
    ((∀ c ∈ (['1', '5'] : List Char), isDig c = true) ∧
      yearLike ['1', '5'] = false) :=
  ⟨c6_boundary_rejection.1 "[07].mkv".data
      (MState.mk [']', '7', '0', '['] ['.', 'm', 'k', 'v'] [(1, ['0', '7'])]) (by decide),
   c6_boundary_rejection.2.1 "[07].mkv".data
      (MState.mk [']', '7', '0', '['] ['.', 'm', 'k', 'v'] [(1, ['0', '7'])]) ['0', '7']
      (by decide) (by decide),
   c6_boundary_rejection.2.2.2.1 "Show - 15.mkv".data
      (MState.mk ['5', '1', ' ', '-', ' ', 'w', 'o', 'h', 'S'] ['.', 'm', 'k', 'v']
        [(1, ['1', '5'])]) ['1', '5'] (by decide) (by decide)⟩

/-! Association-list facts and the episode-table invariant (C5, C9). -/

theorem alookup_cons {α β : Type} [BEq α] (a : α) (b : β) (l : List (α × β)) (k : α) :
    alookup ((a, b) :: l) k = if a == k then some b else alookup l k := by
  by_cases h : (a == k) = true
  · simp [alookup, List.find?, h]
  · simp only [Bool.not_eq_true] at h
    simp [alookup, List.find?, h]

theorem alookup_append {α β : Type} [BEq α] (l₁ l₂ : List (α × β)) (k : α) :
    alookup (l₁ ++ l₂) k =
      match alookup l₁ k with
      | some v => some v
      | none => alookup l₂ k := by
  induction l₁ with
  | nil =>
    rw [List.nil_append]
    rfl
  | cons p l₁ ih =>
    obtain ⟨a, b⟩ := p
    rw [List.cons_append, alookup_cons, alookup_cons]
    by_cases h : (a == k) = true
    · rw [if_pos h, if_pos h]
    · rw [if_neg h, if_neg h, ih]

theorem getEp_shape {name es : String} (h : get_episode_number_cached name = some es) :
    ∃ p : Nat × Nat, extract_episode_info name = some p ∧
      es = normalize_episode_number p.1 p.2 := by
  unfold get_episode_number_cached at h
  cases hx : extract_episode_info name with
  | none => rw [hx] at h; cases h
  | some p =>
    obtain ⟨s, e⟩ := p
    rw [hx] at h
    simp only [] at h
    exact ⟨(s, e), rfl, (Option.some.inj h).symm⟩

theorem getEp_key_normal {name es : String} {k : Nat × Nat}
    (h : get_episode_number_cached name = some es)
    (hk : parseKeyOfEp es = some k) : es = normKey k := by
  obtain ⟨⟨s, e⟩, _, rfl⟩ := getEp_shape h
  rw [parseKey_normalize] at hk
  obtain rfl : (s, e) = k := Option.some.inj hk
  rfl

theorem normKey_inj {k k' : Nat × Nat} (h : normKey k = normKey k') : k = k' := by
  obtain ⟨h1, h2⟩ := normalize_injective h
  exact Prod.ext h1 h2

theorem becInv_insert {ve : List ((Nat × Nat) × String)} {tvd : List (String × String)}
    {key : Nat × Nat} {es video : String} (hinv : becInv ve tvd)
    (hes : es = normKey key) (hlk : alookup ve key = none) :
    becInv (ve ++ [(key, es)]) (tvd ++ [(es, video)]) := by
  constructor
  · intro k hk
    rw [alookup_append] at hk
    cases hvk : alookup ve k with
    | some v => rw [hvk] at hk; cases hk
    | none =>
      rw [hvk] at hk
      simp only [] at hk
      rw [alookup_cons] at hk
      by_cases hkk : (key == k) = true
      · rw [if_pos hkk] at hk; cases hk
      · rw [alookup_append, hinv.1 k hvk]
        simp only []
        rw [alookup_cons]
        have hne : (es == normKey k) = false := by
          cases hb : es == normKey k
          · rfl
          · exfalso
            have heq : es = normKey k := eq_of_beq hb
            rw [hes] at heq
            have : key = k := normKey_inj heq
            rw [this] at hkk
            exact hkk (by simp)
        rw [hne]
        rfl
  · intro k es' hk
    rw [alookup_append] at hk
    cases hvk : alookup ve k with
    | some es₀ =>
      rw [hvk] at hk
      simp only [] at hk
      have heq : es₀ = es' := Option.some.inj hk
      rw [← heq]
      obtain ⟨h1, h2⟩ := hinv.2 k es₀ hvk
      refine ⟨h1, ?_⟩
      rw [alookup_append]
      cases htv : alookup tvd es₀ with
      | none => rw [htv] at h2; cases h2
      | some w => rfl
    | none =>
      rw [hvk] at hk
      simp only [] at hk
      rw [alookup_cons] at hk
      by_cases hkk : (key == k) = true
      · rw [if_pos hkk] at hk
        have heq : es = es' := Option.some.inj hk
        rw [← heq]
        have hkeq : key = k := eq_of_beq hkk
        rw [← hkeq]
        refine ⟨hes, ?_⟩
        rw [alookup_append]
        have h0 : alookup tvd es = none := by
          rw [hes, hkeq]
          exact hinv.1 k (hkeq ▸ hvk)
        rw [h0]
        simp only []
        rw [alookup_cons, if_pos (by simp)]
        rfl
      · rw [if_neg hkk] at hk
        cases hk

theorem becGo_inv :
    ∀ (l : List String) (ve : List ((Nat × Nat) × String)) (tvd : List (String × String)),
      becInv ve tvd → becInv (becGo l ve tvd).1 (becGo l ve tvd).2 := by
  intro l
  induction l with
  | nil => intro ve tvd h; exact h
  | cons video rest ih =>
    intro ve tvd hinv
    cases hge : get_episode_number_cached video with
    | none => simpa only [becGo, hge] using ih ve tvd hinv
    | some es =>
      cases hpk : parseKeyOfEp es with
      | none => simpa only [becGo, hge, hpk] using ih ve tvd hinv
      | some key =>
        have hes : es = normKey key := getEp_key_normal hge hpk
        cases hlk : alookup ve key with
        | none =>
          simpa only [becGo, hge, hpk, hlk] using
            ih _ _ (becInv_insert hinv hes hlk)
        | some es₀ =>
          cases htv : alookup tvd es with
          | none =>
            exfalso
            obtain ⟨h1, h2⟩ := hinv.2 key es₀ hlk
            rw [h1, ← hes, htv] at h2
            cases h2
          | some v₀ =>
            simpa only [becGo, hge, hpk, hlk, htv] using ih ve tvd hinv

theorem becGo_ve_lookup :
    ∀ (l : List String) (ve : List ((Nat × Nat) × String)) (tvd : List (String × String))
      (k : Nat × Nat),
      alookup (becGo l ve tvd).1 k =
        match alookup ve k with
        | some es => some es
        | none => (l.find? (fun v => videoKey v == some k)).bind get_episode_number_cached := by
  intro l
  induction l with
  | nil =>
    intro ve tvd k
    cases hvk : alookup ve k <;> simp [becGo, hvk, List.find?]
  | cons video rest ih =>
    intro ve tvd k
    cases hge : get_episode_number_cached video with
    | none =>
      have hpred : (videoKey video == some k) = false := by
        simp [videoKey, hge]
      simp only [becGo, hge, List.find?, hpred]
      exact ih ve tvd k
    | some es =>
      cases hpk : parseKeyOfEp es with
      | none =>
        have hpred : (videoKey video == some k) = false := by
          simp [videoKey, hge, hpk]
        simp only [becGo, hge, hpk, List.find?, hpred]
        exact ih ve tvd k
      | some key =>
        have hvkey : videoKey video = some key := by
          simp [videoKey, hge, hpk]
        have hpred : (videoKey video == some k) = (key == k) := by
          rw [hvkey]
          rfl
        cases hlk : alookup ve key with
        | none =>
          have hstep : becGo (video :: rest) ve tvd =
              becGo rest (ve ++ [(key, es)]) (tvd ++ [(es, video)]) := by
            simp only [becGo, hge, hpk, hlk]
          rw [hstep, ih]
          by_cases hkk : (key == k) = true
          · obtain rfl : key = k := eq_of_beq hkk
            rw [hlk]
            have hv1 : alookup (ve ++ [(key, es)]) key = some es := by
              rw [alookup_append, hlk]
              simp only []
              rw [alookup_cons, if_pos (by simp)]
            rw [hv1]
            simp only [List.find?, hpred, beq_self_eq_true]
            rw [Option.some_bind, hge]
          · have hkkf : (key == k) = false := by
              cases hb : key == k
              · rfl
              · exact absurd hb hkk
            have hv1 : alookup (ve ++ [(key, es)]) k = alookup ve k := by
              rw [alookup_append]
              cases hvk : alookup ve k with
              | some v => rfl
              | none =>
                simp only []
                rw [alookup_cons, if_neg (by rw [hkkf]; simp)]
                rfl
            rw [hv1]
            simp only [List.find?, hpred, hkkf]
        | some es₀ =>
          have hstep : ∃ tvd', becGo (video :: rest) ve tvd = becGo rest ve tvd' := by
            cases htv : alookup tvd es with
            | none => exact ⟨tvd ++ [(es, video)], by simp only [becGo, hge, hpk, hlk, htv]⟩
            | some w => exact ⟨tvd, by simp only [becGo, hge, hpk, hlk, htv]⟩
          obtain ⟨tvd', hstep⟩ := hstep
          rw [hstep, ih]
          by_cases hkk : (key == k) = true
          · obtain rfl : key = k := eq_of_beq hkk
            rw [hlk]
          · have hkkf : (key == k) = false := by
              cases hb : key == k
              · rfl
              · exact absurd hb hkk
            simp only [List.find?, hpred, hkkf]

theorem becGo_tvd_preserve :
    ∀ (l : List String) (ve : List ((Nat × Nat) × String)) (tvd : List (String × String))
      (es : String) (v₀ : String), alookup tvd es = some v₀ →
      alookup (becGo l ve tvd).2 es = some v₀ := by
  intro l
  induction l with
  | nil => intro ve tvd es v₀ h; exact h
  | cons video rest ih =>
    intro ve tvd es v₀ h
    cases hge : get_episode_number_cached video with
    | none => simp only [becGo, hge]; exact ih ve tvd es v₀ h
    | some es₁ =>
      cases hpk : parseKeyOfEp es₁ with
      | none => simp only [becGo, hge, hpk]; exact ih ve tvd es v₀ h
      | some key =>
        have happ : alookup (tvd ++ [(es₁, video)]) es = some v₀ := by
          rw [alookup_append, h]
        cases hlk : alookup ve key with
        | none =>
          simp only [becGo, hge, hpk, hlk]
          exact ih _ _ es v₀ happ
        | some es₀ =>
          cases htv : alookup tvd es₁ with
          | none =>
            simp only [becGo, hge, hpk, hlk, htv]
            exact ih _ _ es v₀ happ
          | some w =>
            simp only [becGo, hge, hpk, hlk, htv]
            exact ih ve tvd es v₀ h

theorem becGo_tvd_new :
    ∀ (l : List String) (ve : List ((Nat × Nat) × String)) (tvd : List (String × String))
      (k : Nat × Nat) (v₀ : String), becInv ve tvd → alookup ve k = none →
      l.find? (fun v => videoKey v == some k) = some v₀ →
      alookup (becGo l ve tvd).2 (normKey k) = some v₀ := by
  intro l
  induction l with
  | nil => intro ve tvd k v₀ _ _ hf; cases hf
  | cons video rest ih =>
    intro ve tvd k v₀ hinv hk hf
    by_cases hpred : (videoKey video == some k) = true
    · have hv0 : video = v₀ := by
        simp only [List.find?, hpred] at hf
        exact Option.some.inj hf
      subst hv0
      have hvk : videoKey video = some k := eq_of_beq hpred
      obtain ⟨es, hge, hpk⟩ := Option.bind_eq_some.mp hvk
      have hes : es = normKey k := getEp_key_normal hge hpk
      simp only [becGo, hge, hpk, hk]
      apply becGo_tvd_preserve
      rw [alookup_append, hinv.1 k hk]
      simp only []
      rw [alookup_cons, if_pos (by rw [hes]; simp)]
    · have hpredf : (videoKey video == some k) = false := by
        cases hb : videoKey video == some k
        · rfl
        · exact absurd hb hpred
      simp only [List.find?, hpredf] at hf
      cases hge : get_episode_number_cached video with
      | none => simp only [becGo, hge]; exact ih ve tvd k v₀ hinv hk hf
      | some es =>
        cases hpk : parseKeyOfEp es with
        | none => simp only [becGo, hge, hpk]; exact ih ve tvd k v₀ hinv hk hf
        | some key =>
          have hkey_ne : (key == k) = false := by
            have : videoKey video = some key := by simp [videoKey, hge, hpk]
            rw [this] at hpredf
            exact hpredf
          have hes : es = normKey key := getEp_key_normal hge hpk
          cases hlk : alookup ve key with
          | none =>
            simp only [becGo, hge, hpk, hlk]
            apply ih _ _ k v₀ (becInv_insert hinv hes hlk)
            · rw [alookup_append, hk]
              simp only []
              rw [alookup_cons, if_neg (by rw [hkey_ne]; simp)]
              rfl
            · exact hf
          | some es₀ =>
            cases htv : alookup tvd es with
            | none =>
              exfalso
              obtain ⟨h1, h2⟩ := hinv.2 key es₀ hlk
              rw [h1, ← hes, htv] at h2
              cases h2
            | some w =>
              simp only [becGo, hge, hpk, hlk, htv]
              exact ih ve tvd k v₀ hinv hk hf

/-- C5.  Canonical-first-wins table construction: for every list of
video filenames and every `(season, episode)` key, the first component
of `build_episode_context` maps the key to the episode string of the
first video (in lexicographically sorted order) carrying that key, and
the second maps that canonical episode string back to that same first
video; in particular videos later in sorted order with an
already-recorded key change neither mapping. -/
theorem c5_canonical_first_wins (videos : List String) (key : Nat × Nat) :
    alookup (build_episode_context videos).1 key =
      ((sortStrings videos).find? (fun v => videoKey v == some key)).bind
        get_episode_number_cached ∧
    (((sortStrings videos).find? (fun v => videoKey v == some key)).bind
        get_episode_number_cached).bind (alookup (build_episode_context videos).2) =
      (sortStrings videos).find? (fun v => videoKey v == some key) := by
  have hinv0 : becInv [] [] := ⟨fun k _ => rfl, fun k es h => by cases h⟩
  constructor
  · unfold build_episode_context
    rw [becGo_ve_lookup]
    rfl
  · cases hf : (sortStrings videos).find? (fun v => videoKey v == some key) with
    | none => rfl
    | some v₀ =>
      have hpred : (videoKey v₀ == some key) = true := by
        have := List.find?_some hf
        simpa using this
      have hvk : videoKey v₀ = some key := eq_of_beq hpred
      obtain ⟨es, hge, hpk⟩ := Option.bind_eq_some.mp hvk
      have hes : es = normKey key := getEp_key_normal hge hpk
      rw [Option.some_bind, hge, Option.some_bind]
      unfold build_episode_context
      rw [hes, becGo_tvd_new (sortStrings videos) [] [] key v₀ hinv0 rfl hf]

/-- C9.  Fixed point of normalization: (a) every identifier returned by
`get_episode_number_cached` is unchanged by re-parsing its components
and re-normalizing the resulting integers; (b) consequently, whenever a
subtitle's `(season, episode)` key is present in the `video_episodes`
table built by `build_episode_context`, the table's canonical string
equals the subtitle's raw identifier, so the context-aware adjustment
of `process_subtitles` never changes the working identifier. -/
theorem c9_normalization_fixed_point :
    (∀ (name es : String), get_episode_number_cached name = some es →
      renormalize es = es) ∧
    (∀ (videos : List String) (sub es : String) (key : Nat × Nat) (canon : String),
      get_episode_number_cached sub = some es → parseKeyOfEp es = some key →
      alookup (build_episode_context videos).1 key = some canon →
      canon = es) := by
  constructor
  · intro name es h
    obtain ⟨⟨s, e⟩, _, rfl⟩ := getEp_shape h
    exact renormalize_normalize s e
  · intro videos sub es key canon hge hpk hcanon
    have hinv : becInv (build_episode_context videos).1 (build_episode_context videos).2 :=
      becGo_inv (sortStrings videos) [] [] ⟨fun k _ => rfl, fun k es h => by cases h⟩
    have h1 := (hinv.2 key canon hcanon).1
    rw [h1, getEp_key_normal hge hpk]

/-- Witness for C9 at a concrete library: the video `Show.S01E05.mkv`
records canonical `S01E05` under key `(1, 5)`, and the subtitle
`Show.s1e5.ass` produces the same raw identifier, so the adjustment is
the identity. -/
theorem c9_normalization_fixed_point_witness :
    renormalize "S01E05" = "S01E05" ∧ ("S01E05" : String) = "S01E05" :=
  ⟨c9_normalization_fixed_point.1 "Show.S01E05.mkv" "S01E05" (by decide),
   c9_normalization_fixed_point.2 ["Show.S01E05.mkv"] "Show.s1e5.ass" "S01E05" (1, 5)
     "S01E05" (by decide) (by decide) (by decide)⟩

/-! Unique-name generation: termination and freshness (C8). -/

theorem natStr_data_inj {a b : Nat} (h : (natStr a).data = (natStr b).data) : a = b := by
  have ha := digitsToNat_natStr a
  have hb := digitsToNat_natStr b
  rw [h, hb] at ha
  exact ha.symm

theorem cand_inj (name_part ext_part : String) {a b : Nat}
    (h : name_part ++ "_" ++ natStr a ++ ext_part = name_part ++ "_" ++ natStr b ++ ext_part) :
    a = b := by
  have hd := congrArg String.data h
  simp only [str_data_append, List.append_assoc] at hd
  exact natStr_data_inj
    (List.append_cancel_right (List.append_cancel_left (List.append_cancel_left hd)))

theorem gunLoop_ok (name_part ext_part : String) (existing : List String) :
    ∀ (fuel counter : Nat),
      (∃ j, j < fuel ∧ (name_part ++ "_" ++ natStr (counter + j) ++ ext_part) ∉ existing) →
      ∃ r, gunLoop name_part ext_part existing fuel counter = some r ∧ r ∉ existing := by
  intro fuel
  induction fuel with
  | zero =>
    intro counter h
    obtain ⟨j, hj, _⟩ := h
    exact absurd hj (Nat.not_lt_zero j)
  | succ fuel ih =>
    intro counter h
    obtain ⟨j, hj, hjfree⟩ := h
    by_cases hc : (name_part ++ "_" ++ natStr counter ++ ext_part) ∈ existing
    · have hj0 : j ≠ 0 := by
        intro h0
        rw [h0, Nat.add_zero] at hjfree
        exact hjfree hc
      obtain ⟨r, hr, hrfree⟩ := ih (counter + 1)
        ⟨j - 1, by omega,
          by rw [show counter + 1 + (j - 1) = counter + j by omega]; exact hjfree⟩
      refine ⟨r, ?_, hrfree⟩
      simp only [gunLoop]
      rw [if_pos hc]
      exact hr
    · refine ⟨name_part ++ "_" ++ natStr counter ++ ext_part, ?_, hc⟩
      simp only [gunLoop]
      rw [if_neg hc]

theorem exists_free_cand (name_part ext_part : String) (existing : List String) :
    ∃ j, j < existing.length + 1 ∧
      (name_part ++ "_" ++ natStr (1 + j) ++ ext_part) ∉ existing := by
  by_contra hcon
  push_neg at hcon
  have hinj : Function.Injective (fun j : Nat => name_part ++ "_" ++ natStr (1 + j) ++ ext_part) := by
    intro j1 j2 hj
    have := cand_inj name_part ext_part hj
    omega
  have hsub : (Finset.range (existing.length + 1)).image
      (fun j => name_part ++ "_" ++ natStr (1 + j) ++ ext_part) ⊆ existing.toFinset := by
    intro x hx
    obtain ⟨j, hj, rfl⟩ := Finset.mem_image.mp hx
    rw [List.mem_toFinset]
    exact hcon j (Finset.mem_range.mp hj)
  have hcard := Finset.card_le_card hsub
  rw [Finset.card_image_of_injective _ hinj, Finset.card_range] at hcard
  have hle : existing.toFinset.card ≤ existing.length := List.toFinset_card_le existing
  omega

theorem gun_branch_fresh (specific : String) (existing : List String) :
    ∃ name, (if specific ∈ existing then
        gunLoop (splitext specific).1 (splitext specific).2 existing (existing.length + 1) 1
      else some specific) = some name ∧ name ∉ existing := by
  by_cases h : specific ∈ existing
  · rw [if_pos h]
    obtain ⟨j, hj, hfree⟩ :=
      exists_free_cand (splitext specific).1 (splitext specific).2 existing
    exact gunLoop_ok (splitext specific).1 (splitext specific).2 existing
      (existing.length + 1) 1 ⟨j, hj, hfree⟩
  · exact ⟨specific, by rw [if_neg h], h⟩

/-- C8.  The unique-name generator always terminates with a result (a
fuel of `existing.length + 1` suffices for the counter loop, since the
candidate names for distinct counters are pairwise distinct and the
directory listing is finite) and the returned name collides with no
existing file; hence a second subtitle matching the same video receives
a distinct name and never silently overwrites the first. -/
theorem c8_unique_name_total_fresh (base_name subtitle_ext subtitle : String)
    (existing : List String) (language_suffix : String) :
    ∃ name, generate_unique_name base_name subtitle_ext subtitle existing language_suffix =
        some name ∧ name ∉ existing := by
  unfold generate_unique_name
  by_cases h1 : build_subtitle_filename base_name subtitle_ext language_suffix ∈ existing
  · rw [if_pos h1]
    exact gun_branch_fresh _ existing
  · rw [if_neg h1]
    exact ⟨build_subtitle_filename base_name subtitle_ext language_suffix, rfl, h1⟩

end SubFast
